import Mathlib

/-!
# OLE2 container decoder: `libclamav/ole2_extract.c`

A shallow embedding of the decoder and theorems about it.

Conventions of the embedding.

* The input file is a `List Byte`; the descriptor is the file itself.  Every block read
  seeks first, so the descriptor position is not threaded through the functions.  The two
  reads that happen at the current position are the header read (position 0 on a freshly
  opened descriptor) and the read after `lseek(fd, -1, SEEK_SET)`, whose result `-1` the
  comparison `!= offset` accepts; for the latter the position is `Env.cur`.
* The host is little-endian (`WORDS_LITTLEENDIAN`): both conversion functions are the
  identity and a field is the little-endian value of its bytes.
* `int` is 32 bits wide.  Signed arithmetic wraps (`wrap32`), which is what gcc does for
  `<<` and for conversions; a shift count of 32 or more, undefined in C, is given its
  mathematical value reduced modulo `2^32`.
* C objects are views of memory (`Mem`, bytes addressed by an `Int` displacement from the
  object's first byte).  `ole2_header_t` has no padding: its fields sit at the file
  offsets 0..511 and `sbat_root_start` follows `bat_array`.  The `packed` attribute stands
  after the typedef name, where gcc ignores it, so `property_t` has natural alignment: two
  padding bytes after `user_flags`, `start_block` at 116, `size` at 120, 128 bytes in all.
* An automatic array starts with indeterminate contents: `Env.junk`.  A block larger than
  the array it is read into stays in the model buffer.
* `read`, `write` and `open` are the environment's: reads return the bytes of the file,
  `Env.open_ok` and `Env.write_error` decide whether `open` and `writen` succeed.
  Allocation succeeds, except `cli_malloc` of a negative `int` size.
* Loops that the code does not bound take `fuel`: the result is `none` when more than
  `fuel` iterations of some loop are needed.
* Debug printing (`cli_dbgmsg`, `print_*`) has no effect and is left out.
* Definitions named `spec_...` follow the words of the specification and are what the
  code is compared with; the other definitions follow the source.
* `bat_advance_calls`, `bat_index_safe` and `name_reads` record which calls a loop of the
  source makes and which array elements it touches; they follow the same loops as the
  functions that compute the values.
-/

namespace Ole2

abbrev Byte := Fin 256

/-- Memory seen from the first byte of a C object. -/
abbrev Mem := Int → Byte

/-- Conversion of an integer to `int` (two's complement, 32 bits). -/
def wrap32 (x : Int) : Int :=
  if (x % 4294967296).toNat < 2147483648 then x % 4294967296 else x % 4294967296 - 4294967296

/-- Conversion of an integer to `unsigned int`. -/
def toU32 (x : Int) : Nat := (x % 4294967296).toNat

def readU16 (m : Mem) (a : Int) : Nat := (m a).val + 256 * (m (a + 1)).val

def readU32 (m : Mem) (a : Int) : Nat :=
  (m a).val + 256 * (m (a + 1)).val + 65536 * (m (a + 2)).val + 16777216 * (m (a + 3)).val

/-- An `int16_t` field. -/
def readS16 (m : Mem) (a : Int) : Int :=
  if readU16 m a < 32768 then (readU16 m a : Int) else (readU16 m a : Int) - 65536

/-- An `int32_t` field, and a `uint32_t` value returned as `int`. -/
def readS32 (m : Mem) (a : Int) : Int := wrap32 (readU32 m a)

/-- Memory after `data` has been stored at displacement 0. -/
def blit (data : List Byte) (m : Mem) : Mem := fun a =>
  match a with
  | Int.ofNat n => data.getD n (m a)
  | Int.negSucc _ => m a

/-- The `n` bytes of `m` from displacement `a` on. -/
def peek (m : Mem) (a : Int) (n : Nat) : List Byte :=
  (List.range n).map (fun (i : Nat) => m (a + (i : Int)))

/-- What the environment decides. -/
structure Env where
  /-- Indeterminate contents of automatic arrays and of the memory around them. -/
  junk : Mem
  /-- Descriptor position for the read that follows a seek to `-1`. -/
  cur : Nat
  /-- Value of `i + (int) prop` in `handler_writefile`. -/
  counter : Int
  /-- Whether `open` of the named output file succeeds. -/
  open_ok : List Byte → Bool
  /-- From the bytes written so far and the next chunk: `some k` when `writen` fails after `k` bytes. -/
  write_error : List Byte → List Byte → Option Nat
  /-- The error code `CL_EOLE2` of `clamav.h`. -/
  CL_EOLE2 : Int

/-- The header object of `cli_ole2_extract`: its 512 bytes read from the file (and the
memory around them), and the member `sbat_root_start`. -/
structure ole2_header_t where
  raw : Mem
  sbat_root_start : Int

namespace ole2_header_t

def magic (hdr : ole2_header_t) (i : Nat) : Byte := hdr.raw (i : Int)
def log2_big_block_size (hdr : ole2_header_t) : Nat := readU16 hdr.raw 30
def log2_small_block_size (hdr : ole2_header_t) : Nat := readU32 hdr.raw 32
def bat_count (hdr : ole2_header_t) : Int := readS32 hdr.raw 44
def prop_start (hdr : ole2_header_t) : Int := readS32 hdr.raw 48
def sbat_cutoff (hdr : ole2_header_t) : Nat := readU32 hdr.raw 56
def sbat_start (hdr : ole2_header_t) : Int := readS32 hdr.raw 60
def sbat_block_count (hdr : ole2_header_t) : Int := readS32 hdr.raw 64
def xbat_start (hdr : ole2_header_t) : Int := readS32 hdr.raw 68
def xbat_count (hdr : ole2_header_t) : Int := readS32 hdr.raw 72

/-- The expression `hdr->bat_array[i]`; index 109 is the next member, `sbat_root_start`. -/
def bat_array (hdr : ole2_header_t) (i : Int) : Int :=
  if i = 109 then hdr.sbat_root_start else readS32 hdr.raw (76 + 4 * i)

end ole2_header_t

/-- A `property_t *`: memory from the first byte of the entry on. -/
structure property_t where
  mem : Mem

namespace property_t

def name (prop : property_t) : Mem := prop.mem
def name_size (prop : property_t) : Int := readS16 prop.mem 64
def type (prop : property_t) : Nat := (prop.mem 66).val
def color (prop : property_t) : Nat := (prop.mem 67).val
def prev (prop : property_t) : Int := readS32 prop.mem 68
def next (prop : property_t) : Int := readS32 prop.mem 72
def child (prop : property_t) : Int := readS32 prop.mem 76
def start_block (prop : property_t) : Int := readS32 prop.mem 116
def size (prop : property_t) : Int := readS32 prop.mem 120

end property_t

def magic_id : List Byte := [0xd0, 0xcf, 0x11, 0xe0, 0xa1, 0xb1, 0x1a, 0xe1]

/-- The bytes `readn` stores: up to `count` bytes of the file from `pos`; it returns their number. -/
def readn (file : List Byte) (pos : Nat) (count : Nat) : List Byte :=
  (file.drop pos).take count

/-- The value of `strncmp` on the bytes `s1 i ..` and `s2 i ..`, at most `n` of them. -/
def strncmp (s1 s2 : Nat → Byte) : Nat → Nat → Int
  | _, 0 => 0
  | i, n + 1 =>
    if s1 i ≠ s2 i then ((s1 i).val : Int) - ((s2 i).val : Int)
    else if (s1 i).val = 0 then 0
    else strncmp s1 s2 (i + 1) n

/-- The value of `1 << hdr->log2_big_block_size`, an `int`. -/
def big_block_size (hdr : ole2_header_t) : Int := wrap32 (2 ^ hdr.log2_big_block_size)

/-- The variable `offset` of `ole2_read_block`. -/
def block_offset (hdr : ole2_header_t) (blockno : Int) : Int :=
  wrap32 (wrap32 (blockno * 2 ^ hdr.log2_big_block_size) + 512)

/-- Result and buffer contents after `ole2_read_block(fd, hdr, buff, blockno)`.  On a
failed seek the buffer is untouched; a short read leaves the bytes read in the buffer.
(Irreducible, so that elaboration does not unfold 32-bit arithmetic on open terms.) -/
@[irreducible] def ole2_read_block (env : Env) (file : List Byte) (hdr : ole2_header_t)
    (buff : Mem) (blockno : Int) : Bool × Mem :=
  let offset := block_offset hdr blockno
  if offset < 0 ∧ offset ≠ -1 then (false, buff)
  else
    let pos := if offset = -1 then env.cur else offset.toNat
    let data := readn file pos (toU32 (big_block_size hdr))
    (decide (wrap32 (data.length : Int) = big_block_size hdr), blit data buff)

def ole2_get_next_bat_block (env : Env) (file : List Byte) (hdr : ole2_header_t)
    (current_block : Int) : Int :=
  let bat_array_index := Int.tdiv current_block 128
  if bat_array_index > hdr.bat_count then -10
  else
    let bat := (ole2_read_block env file hdr env.junk (hdr.bat_array bat_array_index)).2
    readS32 bat (4 * (current_block - bat_array_index * 128))

/-- Whether the call `ole2_get_next_bat_block(fd, hdr, current_block)` stays inside its
arrays: it returns before indexing them, or `bat_array_index` is an index of the 109
elements of `bat_array` and `current_block - bat_array_index * 128` one of the 128
elements of `bat`. -/
def bat_index_safe (hdr : ole2_header_t) (current_block : Int) : Bool :=
  let bat_array_index := Int.tdiv current_block 128
  decide (bat_array_index > hdr.bat_count) ||
    (decide (0 ≤ bat_array_index ∧ bat_array_index < 109) &&
      decide (0 ≤ current_block - bat_array_index * 128 ∧
        current_block - bat_array_index * 128 < 128))

/-- The loop `while (n > 0) { b = ole2_get_next_bat_block(fd, hdr, b); n--; }`. -/
def bat_advance (env : Env) (file : List Byte) (hdr : ole2_header_t) : Nat → Int → Int
  | 0, b => b
  | n + 1, b => bat_advance env file hdr n (ole2_get_next_bat_block env file hdr b)

/-- The arguments `current_block` of the calls of `ole2_get_next_bat_block` that the loop
`while (n > 0) { b = ole2_get_next_bat_block(fd, hdr, b); n--; }` makes, in order. -/
def bat_advance_calls (env : Env) (file : List Byte) (hdr : ole2_header_t) : Nat → Int → List Int
  | 0, _ => []
  | n + 1, b => b :: bat_advance_calls env file hdr n (ole2_get_next_bat_block env file hdr b)

def ole2_get_next_sbat_block (env : Env) (file : List Byte) (hdr : ole2_header_t)
    (current_block : Int) : Int :=
  let iter := Int.tdiv current_block 128
  let current_bat_block := bat_advance env file hdr iter.toNat hdr.sbat_start
  let sbat := (ole2_read_block env file hdr env.junk current_bat_block).2
  readS32 sbat (4 * Int.tmod current_block 128)

/-- One pass of the loop of `ole2_get_next_xbat_block`:
`ole2_read_block(fd, hdr, &xbat, xbat[127])`. -/
def xbat_step (env : Env) (file : List Byte) (hdr : ole2_header_t) (xbat : Mem) : Mem :=
  (ole2_read_block env file hdr xbat (readS32 xbat (4 * 127))).2

/-- The loop of `ole2_get_next_xbat_block` that follows the chain of XBAT blocks, `n` passes. -/
def xbat_advance (env : Env) (file : List Byte) (hdr : ole2_header_t) (n : Nat) (xbat : Mem) :
    Mem :=
  (xbat_step env file hdr)^[n] xbat

def ole2_get_next_xbat_block (env : Env) (file : List Byte) (hdr : ole2_header_t)
    (current_block : Int) : Int :=
  let xbat_index := Int.tdiv current_block 128
  let xbat_block_index := Int.tdiv (xbat_index - 109) 127
  let bat_blockno := Int.tmod (xbat_index - 109) 127
  let bat_index := Int.tmod current_block 128
  let xbat0 := (ole2_read_block env file hdr env.junk hdr.xbat_start).2
  let xbat := xbat_advance env file hdr xbat_block_index.toNat xbat0
  let bat := (ole2_read_block env file hdr env.junk (readS32 xbat (4 * bat_blockno))).2
  readS32 bat (4 * bat_index)

def ole2_get_next_block_number (env : Env) (file : List Byte) (hdr : ole2_header_t)
    (current_block : Int) : Int :=
  if Int.tdiv current_block 128 > 108 then ole2_get_next_xbat_block env file hdr current_block
  else ole2_get_next_bat_block env file hdr current_block

def ole2_get_sbat_data_block (env : Env) (file : List Byte) (hdr : ole2_header_t) (buff : Mem)
    (sbat_index : Int) : Bool × Mem :=
  if hdr.sbat_root_start < 0 then (false, buff)
  else
    let block_count := Int.tdiv sbat_index 8
    let current_block := bat_advance env file hdr block_count.toNat hdr.sbat_root_start
    ole2_read_block env file hdr buff current_block

/-- The test `isprint(c)` in the C locale. -/
def isprint (c : Int) : Bool := decide (32 ≤ c ∧ c ≤ 126)

/-- The value of a `char` holding the byte `b` (`char` is signed). -/
def toChar (b : Byte) : Int := if b.val < 128 then (b.val : Int) else (b.val : Int) - 256

/-- What one pass of the loop of `get_property_name` appends for the character `b`. -/
def name_step (b : Byte) : List Byte :=
  if isprint (toChar b) then [b]
  else (if toChar b < 10 ∧ toChar b ≥ 0 then [95, 48 + b] else []) ++ [95]

/-- The string `get_property_name(name, size)` returns, `none` for `NULL`.  The loop runs
for `i = 0, 2, ..` below `size - 2`; no character it stores is NUL, so `strlen` is the
number of characters stored. -/
def get_property_name (name : Mem) (size : Int) : Option (List Byte) :=
  if name 0 = 0 ∨ size = 0 then none
  else if size < 0 then none
  else
    let newname :=
      ((List.range ((size - 1) / 2).toNat).map
        (fun (k : Nat) => name_step (name (2 * (k : Int))))).flatten
    if newname.length = 0 then none else some newname

/-- The characters the loop of `get_property_name` stores in `newname`, before the
terminator. -/
def newname_chars (name : Mem) (size : Int) : List Byte :=
  ((List.range ((size - 1) / 2).toNat).map
    (fun (k : Nat) => name_step (name (2 * (k : Int))))).flatten

/-- The indices `i` at which `get_property_name(name, size)` evaluates `name[i]`: index 0
for the test `*name == 0`, and, when the buffer has been allocated, the even indices below
`size - 2` in the loop. -/
def name_reads (name : Mem) (size : Int) : List Int :=
  if name 0 = 0 ∨ size = 0 then [0]
  else if size < 0 then [0]
  else 0 :: (List.range ((size - 1) / 2).toNat).map (fun (k : Nat) => 2 * (k : Int))

/-- The text of `"%.10d"` for `v`: a sign when negative, then at least ten digits. -/
def format_10d (v : Int) : List Byte :=
  (if v < 0 then [(45 : Byte)] else []) ++
    (List.range 10).map (fun k => (48 : Byte) + Fin.ofNat (v.natAbs / 10 ^ (9 - k) % 10))

/-- The name `snprintf(name, 10, "%.10d", v)` leaves in `name`: at most 9 characters. -/
def synth_name (v : Int) : List Byte := (format_10d v).take 9

/-- A file created by `handler_writefile`: its name below `dir` and its contents at `close`. -/
structure Output where
  name : List Byte
  data : List Byte
deriving DecidableEq

/-- The expression `MIN(a, b)`. -/
def MIN (a b : Int) : Int := if a < b then a else b

/-- How one pass of the `while` loop of `handler_writefile` ends: with a `return` (after
`close`), or at the end of the loop body with new values of the variables. -/
inductive WritePass where
  | stop (out : List Byte)
  | next (buff : Mem) (current_block : Int) (len : Int) (out : List Byte)

namespace WritePass

/-- What has been written to `ofd` when the pass ends. -/
def out : WritePass → List Byte
  | stop o => o
  | next _ _ _ o => o

/-- The variable `len` at the end of the loop body; `none` after a `return`. -/
def len : WritePass → Option Int
  | stop _ => none
  | next _ _ l _ => some l

/-- The variable `current_block` at the end of the loop body; `none` after a `return`. -/
def current_block : WritePass → Option Int
  | stop _ => none
  | next _ c _ _ => some c

end WritePass

/-- The branch "Small block file" of the loop body of `handler_writefile`; `out` is what
has been written to `ofd`. -/
def small_block_pass (env : Env) (file : List Byte) (hdr : ole2_header_t) (buff : Mem)
    (current_block : Int) (len : Int) (out : List Byte) : WritePass :=
  match ole2_get_sbat_data_block env file hdr buff current_block with
  | (false, _) => WritePass.stop out
  | (true, buff1) =>
    match env.write_error out
        (peek buff1 (64 * Int.tmod current_block 8) (toU32 (MIN len 64))) with
    | some k =>
      WritePass.stop
        (out ++ (peek buff1 (64 * Int.tmod current_block 8) (toU32 (MIN len 64))).take k)
    | none =>
      WritePass.next buff1 (ole2_get_next_sbat_block env file hdr current_block)
        (wrap32 (len - MIN len 64))
        (out ++ peek buff1 (64 * Int.tmod current_block 8) (toU32 (MIN len 64)))

/-- The branch "Big block file" of the loop body of `handler_writefile`. -/
def big_block_pass (env : Env) (file : List Byte) (hdr : ole2_header_t) (buff : Mem)
    (current_block : Int) (len : Int) (out : List Byte) : WritePass :=
  match ole2_read_block env file hdr buff current_block with
  | (false, _) => WritePass.stop out
  | (true, buff1) =>
    match env.write_error out (peek buff1 0 (toU32 (MIN len (big_block_size hdr)))) with
    | some k =>
      WritePass.stop (out ++ (peek buff1 0 (toU32 (MIN len (big_block_size hdr)))).take k)
    | none =>
      WritePass.next buff1 (ole2_get_next_block_number env file hdr current_block)
        (wrap32 (len - MIN len (big_block_size hdr)))
        (out ++ peek buff1 0 (toU32 (MIN len (big_block_size hdr))))

/-- The body of the `while` loop of `handler_writefile`: the test
`prop->size < hdr->sbat_cutoff` compares as `unsigned int` and is made in every pass. -/
def handler_writefile_pass (env : Env) (file : List Byte) (hdr : ole2_header_t)
    (prop : property_t) (buff : Mem) (current_block : Int) (len : Int) (out : List Byte) :
    WritePass :=
  if toU32 prop.size < hdr.sbat_cutoff then small_block_pass env file hdr buff current_block len out
  else big_block_pass env file hdr buff current_block len out

/-- The successor that the loop body of `handler_writefile` looks up for `current_block`:
`ole2_get_next_sbat_block` in the branch "Small block file", `ole2_get_next_block_number` in
the branch "Big block file". -/
def stream_successor (env : Env) (file : List Byte) (hdr : ole2_header_t) (prop : property_t)
    (current_block : Int) : Int :=
  if toU32 prop.size < hdr.sbat_cutoff then ole2_get_next_sbat_block env file hdr current_block
  else ole2_get_next_block_number env file hdr current_block

/-- The block size of a step of the stream walk: 64 in the branch "Small block file", the
value of `1 << hdr->log2_big_block_size` in the branch "Big block file". -/
def step_size (hdr : ole2_header_t) (prop : property_t) : Int :=
  if toU32 prop.size < hdr.sbat_cutoff then 64 else big_block_size hdr

/-- The loop `while ((current_block >= 0) && (len > 0)) body` of `handler_writefile`.
The result is the contents of the output file when the function returns. -/
def stream_loop (body : Mem → Int → Int → List Byte → WritePass) :
    Nat → Mem → Int → Int → List Byte → Option (List Byte)
  | fuel, buff, current_block, len, out =>
    if current_block ≥ 0 ∧ len > 0 then
      match fuel with
      | 0 => none
      | fuel + 1 =>
        match body buff current_block len out with
        | WritePass.stop out1 => some out1
        | WritePass.next buff1 current_block1 len1 out1 =>
          stream_loop body fuel buff1 current_block1 len1 out1
    else some out

/-- The `while` loop of `handler_writefile`. -/
def handler_writefile_loop (env : Env) (file : List Byte) (hdr : ole2_header_t)
    (prop : property_t) (fuel : Nat) (buff : Mem) (current_block : Int) (len : Int)
    (out : List Byte) : Option (List Byte) :=
  stream_loop (handler_writefile_pass env file hdr prop) fuel buff current_block len out

/-- The name of the output file below `dir`: the decoded name of the property, or the
name made from `i + (int) prop`. -/
def stream_name (env : Env) (prop : property_t) : List Byte :=
  match get_property_name prop.name prop.name_size with
  | some n => n
  | none => synth_name env.counter

/-- The effect of `handler_writefile(fd, hdr, prop, dir)` on the files created so far. -/
def handler_writefile (env : Env) (file : List Byte) (fuel : Nat) (hdr : ole2_header_t)
    (prop : property_t) (outs : List Output) : Option (List Output) :=
  if prop.type ≠ 2 then some outs
  else if env.open_ok (stream_name env prop) then
    match handler_writefile_loop env file hdr prop fuel env.junk prop.start_block prop.size []
      with
    | none => none
    | some data => some (outs ++ [{ name := stream_name env prop, data := data }])
  else some outs

/-- The pointer `&prop_block[index]`. -/
def prop_at (prop_block : Mem) (index : Nat) : property_t :=
  { mem := fun a => prop_block (128 * (index : Int) + a) }

/-- The `for` loop of `ole2_read_property_tree` over the given indices of `prop_block`. -/
def property_entries {σ : Type} (handler : ole2_header_t → property_t → σ → Option σ)
    (prop_block : Mem) : List Nat → ole2_header_t → σ → Option (ole2_header_t × σ)
  | [], hdr, s => some (hdr, s)
  | index :: rest, hdr, s =>
    if (prop_at prop_block index).type > 0 then
      let hdr1 : ole2_header_t :=
        if (prop_at prop_block index).type = 5 then
          { hdr with sbat_root_start := (prop_at prop_block index).start_block }
        else hdr
      match handler hdr1 (prop_at prop_block index) s with
      | none => none
      | some s1 => property_entries handler prop_block rest hdr1 s1
    else property_entries handler prop_block rest hdr s

/-- The contents of the buffer after `ole2_read_block(fd, hdr, buff, blockno)`. -/
def read_block_buff (env : Env) (file : List Byte) (hdr : ole2_header_t) (buff : Mem)
    (blockno : Int) : Mem :=
  (ole2_read_block env file hdr buff blockno).2

/-- The body of the `while` loop of `ole2_read_property_tree` up to the end of the `for`
loop: the block is read into `prop_block` (the result of the read is not looked at) and
its four entries are visited. -/
def property_tree_pass {σ : Type} (env : Env) (file : List Byte)
    (handler : ole2_header_t → property_t → σ → Option σ) (hdr : ole2_header_t)
    (prop_block : Mem) (current_block : Int) (s : σ) : Option (ole2_header_t × σ) :=
  property_entries handler (read_block_buff env file hdr prop_block current_block)
    [0, 1, 2, 3] hdr s

/-- The `while` loop of `ole2_read_property_tree`. -/
def property_tree_loop {σ : Type} (env : Env) (file : List Byte)
    (handler : ole2_header_t → property_t → σ → Option σ) :
    Nat → ole2_header_t → Mem → Int → σ → Option (ole2_header_t × σ)
  | fuel, hdr, prop_block, current_block, s =>
    if current_block ≥ 0 then
      match fuel with
      | 0 => none
      | fuel + 1 =>
        match property_tree_pass env file handler hdr prop_block current_block s with
        | none => none
        | some (hdr1, s1) =>
          property_tree_loop env file handler fuel hdr1
            (read_block_buff env file hdr prop_block current_block)
            (ole2_get_next_block_number env file hdr1 current_block) s1
    else some (hdr, s)

/-- The header and the handler's state after `ole2_read_property_tree(fd, hdr, dir, handler)`. -/
def ole2_read_property_tree {σ : Type} (env : Env) (file : List Byte) (hdr : ole2_header_t)
    (handler : ole2_header_t → property_t → σ → Option σ) (fuel : Nat) (s : σ) :
    Option (ole2_header_t × σ) :=
  property_tree_loop env file handler fuel hdr env.junk hdr.prop_start s

/-- The handler `handler_null`. -/
def handler_null (_hdr : ole2_header_t) (_prop : property_t) (s : Unit) : Option Unit := some s

/-- The header object after the `readn` of `cli_ole2_extract` and `sbat_root_start = -1`. -/
def read_header (env : Env) (file : List Byte) : ole2_header_t :=
  { raw := blit (readn file 0 512) env.junk, sbat_root_start := -1 }

/-- The body of `cli_ole2_extract` with the handler it passes to `ole2_read_property_tree`
as a parameter: return value and final state of the handler. -/
def ole2_extract_with {σ : Type} (env : Env) (file : List Byte)
    (handler : ole2_header_t → property_t → σ → Option σ) (fuel : Nat) (s : σ) :
    Option (Int × σ) :=
  let hdr := read_header env file
  if strncmp hdr.magic (fun i => magic_id.getD i 0) 0 8 ≠ 0 then some (env.CL_EOLE2, s)
  else
    match ole2_read_property_tree env file hdr handler fuel s with
    | none => none
    | some (_, s1) => some (0, s1)

/-- Return value of `cli_ole2_extract(fd, dirname)` and the files it created: the handler
is `handler_writefile`. -/
def cli_ole2_extract (env : Env) (fuel : Nat) (file : List Byte) : Option (Int × List Output) :=
  ole2_extract_with env file (handler_writefile env file fuel) fuel []

/-! ## Reference definitions, following the specification -/

/-- Spec §4.2, `read_big_block(n)`: the `2 ^ log2` bytes at the file offset
`512 + n * 2 ^ log2`, computed exactly; `none` (`ShortRead`) if the file does not hold them. -/
def spec_read_big_block (file : List Byte) (log2 : Nat) (n : Nat) : Option (List Byte) :=
  if (readn file (512 + n * 2 ^ log2) (2 ^ log2)).length = 2 ^ log2 then
    some (readn file (512 + n * 2 ^ log2) (2 ^ log2))
  else none

/-- Spec §3/§4.3: big block (sector) number `n` of an image with 512-byte blocks; block
indices are not negative. -/
def spec_sector (file : List Byte) (n : Int) : Option (List Byte) :=
  if 0 ≤ n then spec_read_big_block file 9 n.toNat else none

/-- Entry `i` of a FAT, mini-FAT or XBAT sector: a signed little-endian 32-bit integer. -/
def spec_entry (sec : List Byte) (i : Nat) : Int :=
  let v := (sec.getD (4 * i) 0).val + 256 * (sec.getD (4 * i + 1) 0).val
    + 65536 * (sec.getD (4 * i + 2) 0).val + 16777216 * (sec.getD (4 * i + 3) 0).val
  if v < 2147483648 then (v : Int) else (v : Int) - 4294967296

/-- Spec §4.3 steps 1, 2 and 4 with `entries_per_block = big_block_size / 4`: the entry
`current mod entries_per_block` of the FAT sector `bat_array[current / entries_per_block]`;
`none` for `FatIndexOutOfRange`, an index of 109 or more, or a sector outside the file. -/
def spec_next_big_direct (file : List Byte) (hdr : ole2_header_t) (current : Nat) : Option Int :=
  let entries_per_block := 2 ^ hdr.log2_big_block_size / 4
  let fat_sector_index := current / entries_per_block
  if (fat_sector_index : Int) > hdr.bat_count ∨ 109 ≤ fat_sector_index then none
  else if hdr.bat_array fat_sector_index < 0 then none
  else
    match spec_read_big_block file hdr.log2_big_block_size
        (hdr.bat_array fat_sector_index).toNat with
    | none => none
    | some sec => some (spec_entry sec (current % entries_per_block))

/-- Spec §4.3 step 3: the XBAT sector reached from sector `s` by following the tail
pointer (entry 127) `k` times. -/
def spec_xbat_sector (file : List Byte) : Nat → Int → Option (List Byte)
  | 0, s => spec_sector file s
  | k + 1, s =>
    match spec_sector file s with
    | none => none
    | some sec => spec_xbat_sector file k (spec_entry sec 127)

/-- Spec §4.3 steps 3 and 4 for 512-byte blocks and `fat_sector_index >= 109`: with
`d = fat_sector_index - 109`, entry `current mod 128` of the FAT sector named in slot
`d mod 127` of the XBAT sector `d / 127` links after `xbat_start`. -/
def spec_next_big_xbat (file : List Byte) (hdr : ole2_header_t) (current : Nat) : Option Int :=
  let d := current / 128 - 109
  match spec_xbat_sector file (d / 127) hdr.xbat_start with
  | none => none
  | some xsec =>
    match spec_sector file (spec_entry xsec (d % 127)) with
    | none => none
    | some fsec => some (spec_entry fsec (current % 128))

/-- Spec §4.3, `next_big(current)` for 512-byte blocks: `FatIndexOutOfRange` if the FAT
sector index exceeds `bat_count`, the direct path for an index below 109, the XBAT path
from 109 on. -/
def spec_next_big (file : List Byte) (hdr : ole2_header_t) (current : Nat) : Option Int :=
  if ((current / 128 : Nat) : Int) > hdr.bat_count then none
  else if current / 128 < 109 then spec_next_big_direct file hdr current
  else spec_next_big_xbat file hdr current

/-- The blocks of the chain that starts at block `b`, as `ole2_get_next_block_number`
links them, up to the first negative block number; `none` if that is not reached within
`n` blocks. -/
def big_chain (env : Env) (file : List Byte) (hdr : ole2_header_t) : Nat → Int → Option (List Int)
  | n, b =>
    if b < 0 then some []
    else
      match n with
      | 0 => none
      | n + 1 =>
        match big_chain env file hdr n (ole2_get_next_block_number env file hdr b) with
        | none => none
        | some bs => some (b :: bs)

/-- Flat enumeration (spec §4.6): visit the listed directory blocks in order and pass the
four entries of each to the handler. -/
def walk_blocks {σ : Type} (env : Env) (file : List Byte)
    (handler : ole2_header_t → property_t → σ → Option σ) :
    List Int → ole2_header_t → Mem → σ → Option (ole2_header_t × σ)
  | [], hdr, _, s => some (hdr, s)
  | p :: ps, hdr, prop_block, s =>
    match property_tree_pass env file handler hdr prop_block p s with
    | none => none
    | some (hdr1, s1) =>
      walk_blocks env file handler ps hdr1 (read_block_buff env file hdr prop_block p) s1

/-- A handler that records the 128 bytes of every entry it is invoked with. -/
def record_handler (_hdr : ole2_header_t) (prop : property_t) (seen : List (List Byte)) :
    Option (List (List Byte)) :=
  some (seen ++ [peek prop.mem 0 128])

/-- Stream materializer (spec §4.7): the chain type is selected once, by
`size < sbat_cutoff`; then the chain is walked with the small-block step (§4.5 + §4.4) or
the big-block step (§4.2 + §4.3). -/
def spec_materialize (env : Env) (file : List Byte) (hdr : ole2_header_t) (prop : property_t)
    (fuel : Nat) : Option (List Byte) :=
  if prop.size < (hdr.sbat_cutoff : Int) then
    stream_loop (small_block_pass env file hdr) fuel env.junk prop.start_block prop.size []
  else
    stream_loop (big_block_pass env file hdr) fuel env.junk prop.start_block prop.size []

/-- The 512-byte block number `b` of the file: the bytes at the file offset
`512 + 512 * b`. -/
def spec_block (file : List Byte) (b : Int) : List Byte := readn file (512 + b.toNat * 512) 512

/-- The list `bs` is the chain that starts at block `b` under the successor function
`next`: every block of it is non-negative and followed by its successor, and the
successor of the last block is negative. -/
def spec_chain (next : Nat → Option Int) : Int → List Int → Bool
  | b, [] => decide (b < 0)
  | b, c :: rest =>
    decide (b = c) && (decide (0 ≤ c) &&
      match next c.toNat with
      | none => false
      | some t => spec_chain next t rest)

/-- Spec §4.4, §4.5: the block reached from block `b` after `n` steps along the big-FAT
chain (§4.3, direct path); `none` if a step starts from a negative block or fails. -/
def spec_chain_nth (file : List Byte) (hdr : ole2_header_t) : Nat → Int → Option Int
  | 0, b => some b
  | n + 1, b =>
    if b < 0 then none
    else
      match spec_next_big_direct file hdr b.toNat with
      | none => none
      | some t => spec_chain_nth file hdr n t

/-- Spec §4.4, `next_small(current)` for 512-byte blocks: entry `current mod 128` of the
mini-FAT sector found `current / 128` steps along the big-FAT chain from `sbat_start`. -/
def spec_next_small (file : List Byte) (hdr : ole2_header_t) (current : Nat) : Option Int :=
  match spec_chain_nth file hdr (current / 128) hdr.sbat_start with
  | none => none
  | some s =>
    match spec_sector file s with
    | none => none
    | some sec => some (spec_entry sec (current % 128))

/-- Spec §4.5: the mini-stream, as far as its first `n` big blocks: the concatenation of
the big blocks on the big-FAT chain that starts at `sbat_root_start`. -/
def spec_mini_stream (file : List Byte) (hdr : ole2_header_t) : Nat → Option (List Byte)
  | 0 => some []
  | n + 1 =>
    match spec_mini_stream file hdr n with
    | none => none
    | some bytes =>
      match spec_chain_nth file hdr n hdr.sbat_root_start with
      | none => none
      | some b =>
        match spec_sector file b with
        | none => none
        | some blk => some (bytes ++ blk)

/-- The slice of small block `m` in the mini-stream: 64 bytes from offset `64 * m`. -/
def spec_mini_slice (mini : List Byte) (m : Int) : List Byte :=
  (mini.drop (64 * m.toNat)).take 64

/-- Spec §4.7: the bound `ceil(size / block_size)` on the steps of a stream walk; 0 when
`size` is not positive. -/
def spec_max_iterations (size block_size : Int) : Int :=
  (max size 0 + block_size - 1) / block_size

/-! ## Images used as concrete inputs -/

/-- An environment whose indeterminate memory is zero and whose output never fails;
`CL_EOLE2` stands for some non-zero code. -/
def env0 : Env :=
  { junk := fun _ => 0, cur := 0, counter := 0, open_ok := fun _ => true,
    write_error := fun _ _ => none, CL_EOLE2 := -107 }

/-- A 128-byte directory entry. -/
def dir_entry (name : List Byte) (name_size type : Byte) (start size : List Byte) : List Byte :=
  name ++ (List.replicate (64 - name.length) 0 ++ ([name_size, 0, type, 1] ++
    (List.replicate 12 255 ++ (List.replicate 36 0 ++ (start ++ (size ++ [0, 0, 0, 0]))))))

/-- Header of `img`: 512-byte blocks, one FAT sector (block 0), directory at block 1,
mini-FAT at block 2, cutoff 4096. -/
def img_header : List Byte :=
  magic_id ++ (List.replicate 16 0 ++ ([0x3e, 0, 3, 0, 0xfe, 0xff, 9, 0, 6, 0, 0, 0] ++
    (List.replicate 8 0 ++ ([1, 0, 0, 0, 1, 0, 0, 0, 0, 0, 0, 0, 0, 0x10, 0, 0,
      2, 0, 0, 0, 1, 0, 0, 0, 0xfe, 0xff, 0xff, 0xff, 0, 0, 0, 0, 0, 0, 0, 0] ++
        List.replicate 432 255))))

/-- FAT sector of `img`: block 0 is the FAT, blocks 1, 2, 3 are one-block chains,
blocks 4..13 form the chain of the stream "Big". -/
def img_fat : List Byte :=
  [0xfd, 0xff, 0xff, 0xff, 0xfe, 0xff, 0xff, 0xff, 0xfe, 0xff, 0xff, 0xff, 0xfe, 0xff, 0xff, 0xff,
   5, 0, 0, 0, 6, 0, 0, 0, 7, 0, 0, 0, 8, 0, 0, 0, 9, 0, 0, 0, 10, 0, 0, 0, 11, 0, 0, 0,
   12, 0, 0, 0, 13, 0, 0, 0, 0xfe, 0xff, 0xff, 0xff] ++ List.replicate 456 255

/-- Directory sector of `img`: root entry, "Foo" (10 bytes, mini-FAT), "Big" (5000 bytes). -/
def img_dir : List Byte :=
  dir_entry [0x52, 0] 4 5 [3, 0, 0, 0] [64, 0, 0, 0] ++
    (dir_entry [0x46, 0, 0x6f, 0, 0x6f, 0] 8 2 [0, 0, 0, 0] [10, 0, 0, 0] ++
      (dir_entry [0x42, 0, 0x69, 0, 0x67, 0] 8 2 [4, 0, 0, 0] [0x88, 0x13, 0, 0] ++
        List.replicate 128 0))

def img_minifat : List Byte := [0xfe, 0xff, 0xff, 0xff] ++ List.replicate 508 255

def img_ministream : List Byte := [0, 1, 2, 3, 4, 5, 6, 7, 8, 9] ++ List.replicate 502 0

/-- A well-formed image of 15 blocks (scenarios E1, E2 and E5 of the specification). -/
def img : List Byte :=
  img_header ++ (img_fat ++ (img_dir ++ (img_minifat ++ (img_ministream ++
    List.replicate 5120 0xaa))))

/-- The image `img` cut off after block 3: the blocks of the stream "Big" are missing. -/
def img_truncated : List Byte :=
  img_header ++ (img_fat ++ (img_dir ++ (img_minifat ++ img_ministream)))

/-- An input of 8 bytes whose first byte is 0 instead of `0xd0` (scenario E6). -/
def img_bad_magic : List Byte := [0x00, 0xcf, 0x11, 0xe0, 0xa1, 0xb1, 0x1a, 0xe1]

/-- An image whose directory chain loops: block 0 is FAT sector and directory at once,
all zero, so that the successor of block 0 is block 0. -/
def img_loop : List Byte :=
  magic_id ++ (List.replicate 22 0 ++ ([9, 0] ++ List.replicate 992 0))

/-- An image with 1024-byte blocks, `bat_count = 0`, one FAT sector (block 0) whose
entry 128 is 7. -/
def img_1k : List Byte :=
  magic_id ++ (List.replicate 22 0 ++ ([10, 0] ++ (List.replicate 480 0 ++
    (List.replicate 512 0 ++ ([7, 0, 0, 0] ++ List.replicate 508 0)))))

/-- An image that needs the XBAT: `xbat_start = 0`; block 0 is an XBAT sector whose tail
names block 1; block 1 is an XBAT sector whose slot 0 names block 2; block 2 is a FAT
sector whose entry 5 is 77. -/
def img_xbat : List Byte :=
  magic_id ++ (List.replicate 22 0 ++ ([9, 0] ++ (List.replicate 480 0 ++
    (List.replicate 508 0 ++ ([1, 0, 0, 0] ++ ([2, 0, 0, 0] ++ (List.replicate 508 0 ++
      (List.replicate 20 0 ++ ([77, 0, 0, 0] ++ List.replicate 488 0)))))))))

/-- An environment whose indeterminate memory is `0xff` everywhere. -/
def env_ff : Env := { env0 with junk := fun _ => 255 }

/-- A type-2 entry without a name. -/
def prop_unnamed : property_t :=
  { mem := blit (dir_entry [] 0 2 [0, 0, 0, 0] [0, 0, 0, 0]) env0.junk }

/-- A type-2 entry of 200 bytes that starts at small block 0. -/
def prop_200 : property_t :=
  { mem := blit (dir_entry [0x46, 0] 4 2 [0, 0, 0, 0] [200, 0, 0, 0]) env0.junk }

/-- A type-2 entry of 1500 bytes that starts at big block 0. -/
def prop_1500 : property_t :=
  { mem := blit (dir_entry [0x46, 0] 4 2 [0, 0, 0, 0] [0xdc, 5, 0, 0]) env0.junk }

/-- A type-2 entry with the name "A", the given `name_size` and the byte `b` first in
`prev`. -/
def entry_long_name (name_size b : Byte) : property_t :=
  { mem := blit ([0x41, 0] ++ (List.replicate 62 0 ++ ([name_size, 0, 2, 1, b, 0, 0, 0] ++
      List.replicate 56 0))) env0.junk }

/-- A header alone, with `log2_big_block_size = 0`: blocks of one byte. -/
def img_log0 : List Byte :=
  magic_id ++ (List.replicate 22 0 ++ ([0, 0] ++ List.replicate 480 0))

/-- An image with `log2_big_block_size = 17`, `bat_count = -1`, `prop_start = 0` and
`sbat_cutoff = 0`, cut off 512 bytes after the header: the first entry of directory
block 0 is the 5-byte stream "A". -/
def img_log17 : List Byte :=
  magic_id ++ (List.replicate 22 0 ++ ([17, 0] ++ (List.replicate 12 0 ++
    ([0xff, 0xff, 0xff, 0xff] ++ (List.replicate 464 0 ++
      (dir_entry [0x41, 0] 4 2 [0, 0, 0, 0] [5, 0, 0, 0] ++ List.replicate 384 0))))))

/-- The image `img_truncated` with another directory: the stream "Foo" (10 bytes) starts at
small block 16. -/
def img_far_mini : List Byte :=
  img_header ++ (img_fat ++ ((dir_entry [0x52, 0] 4 5 [3, 0, 0, 0] [64, 0, 0, 0] ++
    (dir_entry [0x46, 0, 0x6f, 0, 0x6f, 0] 8 2 [16, 0, 0, 0] [10, 0, 0, 0] ++
      List.replicate 256 0)) ++ (img_minifat ++ img_ministream)))

/-- An image of two blocks whose directory chain is 1, 3: block 0 is the FAT, block 1 holds
the root and the empty stream "A", and block 3 lies past the end of the file. -/
def img_dir_cut : List Byte :=
  img_header ++ (([0xfd, 0xff, 0xff, 0xff, 3, 0, 0, 0, 0xfe, 0xff, 0xff, 0xff,
      0xfe, 0xff, 0xff, 0xff] ++ List.replicate 496 255) ++
    (dir_entry [0x52, 0] 4 5 [0xfe, 0xff, 0xff, 0xff] [0, 0, 0, 0] ++
      (dir_entry [0x41, 0] 4 2 [0xfe, 0xff, 0xff, 0xff] [0, 0, 0, 0] ++
        List.replicate 256 0)))

/-- The first 52 bytes of a header with the magic and `prop_start = -1`. -/
def stale_header : List Byte :=
  magic_id ++ (List.replicate 40 0 ++ [0xff, 0xff, 0xff, 0xff])

/-- An environment whose indeterminate memory holds `stale_header`, as an earlier call may
have left it in the place of `hdr`. -/
def env_stale : Env := { env0 with junk := blit stale_header env0.junk }

/-- Header of `img_big`: 512-byte blocks, 110 FAT sectors (`bat_array[0] = 2`,
`bat_array[i] = 4 + i` for `i = 1..108`, the last one in the XBAT sector, block 4),
directory at block 0, mini-FAT at block 1, cutoff 4096. -/
def big_header : List Byte :=
  magic_id ++ (List.replicate 16 0 ++ ([0x3e, 0, 3, 0, 0xfe, 0xff, 9, 0, 6, 0, 0, 0] ++
    (List.replicate 8 0 ++ ([110, 0, 0, 0, 0, 0, 0, 0, 0, 0, 0, 0, 0, 0x10, 0, 0,
      1, 0, 0, 0, 1, 0, 0, 0, 4, 0, 0, 0, 1, 0, 0, 0, 2, 0, 0, 0] ++
        ((List.range 108).map (fun (i : Nat) => [Fin.ofNat (i + 5), 0, 0, 0])).flatten))))

/-- Directory of `img_big`: the root (mini-stream of 1024 bytes from block 13952) and the
stream "Foo" (10 bytes from small block 8). -/
def big_dir : List Byte :=
  dir_entry [0x52, 0] 4 5 [0x80, 0x36, 0, 0] [0, 4, 0, 0] ++
    (dir_entry [0x46, 0, 0x6f, 0, 0x6f, 0] 8 2 [8, 0, 0, 0] [10, 0, 0, 0] ++
      List.replicate 256 0)

/-- Mini-FAT of `img_big`: small block 8 is a chain of one block, the others are free. -/
def big_minifat : List Byte :=
  List.replicate 32 255 ++ ([0xfe, 0xff, 0xff, 0xff] ++ List.replicate 476 255)

/-- FAT sector 0 of `img_big` (blocks 0..127): directory and mini-FAT are chains of one
block, blocks 2, 3 and 5..112 are FAT sectors (-3), block 4 is the XBAT sector (-4), the
rest is free. -/
def big_fat0 : List Byte :=
  [0xfe, 0xff, 0xff, 0xff, 0xfe, 0xff, 0xff, 0xff, 0xfd, 0xff, 0xff, 0xff,
   0xfd, 0xff, 0xff, 0xff, 0xfc, 0xff, 0xff, 0xff] ++
    ((List.replicate 108 [0xfd, 0xff, 0xff, 0xff]).flatten ++ List.replicate 60 255)

/-- FAT sector 109 of `img_big` (blocks 13952..14079): 13952 -> 13953 -> end. -/
def big_fat109 : List Byte :=
  [0x81, 0x36, 0, 0, 0xfe, 0xff, 0xff, 0xff] ++ List.replicate 504 255

/-- XBAT sector of `img_big`: slot 0 names block 3 (FAT sector 109); no further XBAT sector. -/
def big_xbat : List Byte :=
  [3, 0, 0, 0] ++ (List.replicate 504 255 ++ [0xfe, 0xff, 0xff, 0xff])

/-- Header and blocks 0..4 of `img_big`. -/
def img_big_head : List Byte :=
  big_header ++ (big_dir ++ (big_minifat ++ (big_fat0 ++ (big_fat109 ++ big_xbat))))

/-- Blocks 13952 and 13953 of `img_big`, the mini-stream: small blocks 0..7 are zero,
small block 8 holds the bytes 00 01 .. 09 of "Foo". -/
def img_big_tail : List Byte := List.replicate 512 0 ++ img_ministream

/-- A well-formed image of 13954 blocks (7144960 bytes) whose mini-stream lies behind the
part of the FAT that the header names directly: blocks 5..13951 are filled with `0xff`
(FAT sectors 1..108, all entries free, and free blocks). -/
def img_big : List Byte :=
  img_big_head ++ (List.replicate 7140864 255 ++ img_big_tail)

/-- The header of `img_big` after the root entry has been enumerated. -/
def hdr_big : ole2_header_t := { read_header env0 img_big with sbat_root_start := 13952 }

/-- The entry "Foo" of `img_big`, as `ole2_read_property_tree` passes it to the handler. -/
def foo_big : property_t := prop_at (blit big_dir env0.junk) 1

/-! ## Arithmetic and memory lemmas -/

theorem wrap32_eq_self {x : Int} (h1 : -2147483648 ≤ x) (h2 : x < 2147483648) :
    wrap32 x = x := by
  unfold wrap32; split <;> omega

theorem toU32_eq_self {x : Int} (h1 : 0 ≤ x) (h2 : x < 4294967296) :
    toU32 x = x.toNat := by
  unfold toU32; rw [Int.emod_eq_of_lt h1 h2]

theorem blit_of_lt (data : List Byte) (m : Mem) (n : Nat) (h : n < data.length) :
    blit data m (n : Int) = data[n] := by
  show data.getD n (m n) = data[n]
  simp [List.getD_eq_getElem?_getD, List.getElem?_eq_getElem h]

theorem blit_of_ge (data : List Byte) (m : Mem) (n : Nat) (h : data.length ≤ n) :
    blit data m (n : Int) = m n := by
  show data.getD n (m n) = m n
  simp [List.getD_eq_getElem?_getD, List.getElem?_eq_none h]

theorem blit_of_neg (data : List Byte) (m : Mem) (a : Int) (h : a < 0) :
    blit data m a = m a := by
  cases a with
  | ofNat n => exact absurd h (by simp)
  | negSucc n => rfl

theorem readn_length_le (file : List Byte) (pos count : Nat) :
    (readn file pos count).length ≤ count := by
  unfold readn; exact List.length_take_le _ _

theorem readn_length (file : List Byte) (pos count : Nat) (h : pos + count ≤ file.length) :
    (readn file pos count).length = count := by
  unfold readn; simp; omega

theorem readn_length_iff (file : List Byte) (pos count : Nat) :
    (readn file pos count).length = count ↔ pos + count ≤ file.length ∨ count = 0 := by
  unfold readn; simp; omega

theorem two_pow_le_of_le_30 {k : Nat} (h : k ≤ 30) : 2 ^ k ≤ 1073741824 := by
  calc 2 ^ k ≤ 2 ^ 30 := Nat.pow_le_pow_right (by norm_num) h
    _ = 1073741824 := by norm_num

theorem two_pow_cast (k : Nat) : ((2 : Int) ^ k) = ((2 ^ k : Nat) : Int) := by
  push_cast; rfl

/-- Within the range of `int`, `ole2_read_block` seeks to the exact offset and stores what
`readn` finds there. -/
theorem ole2_read_block_eq (env : Env) (file : List Byte) (hdr : ole2_header_t) (buff : Mem)
    (n : Int) (hlog : hdr.log2_big_block_size ≤ 30) (hn : 0 ≤ n)
    (hoff : 512 + n * 2 ^ hdr.log2_big_block_size < 2147483648) :
    ole2_read_block env file hdr buff n =
      (decide ((readn file (512 + n.toNat * 2 ^ hdr.log2_big_block_size)
          (2 ^ hdr.log2_big_block_size)).length = 2 ^ hdr.log2_big_block_size),
        blit (readn file (512 + n.toNat * 2 ^ hdr.log2_big_block_size)
          (2 ^ hdr.log2_big_block_size)) buff) := by
  have hB := two_pow_le_of_le_30 hlog
  have hB1 : 1 ≤ 2 ^ hdr.log2_big_block_size := Nat.one_le_two_pow
  unfold ole2_read_block block_offset big_block_size
  rw [two_pow_cast] at hoff ⊢
  generalize 2 ^ hdr.log2_big_block_size = B at *
  obtain ⟨N, rfl⟩ := Int.eq_ofNat_of_zero_le hn
  simp only [Int.toNat_natCast]
  have hM : ((N * B : Nat) : Int) = (N : Int) * (B : Int) := by push_cast; rfl
  rw [← hM] at hoff ⊢
  have h1 : wrap32 (B : Int) = (B : Int) := wrap32_eq_self (by omega) (by omega)
  have h2 : wrap32 ((N * B : Nat) : Int) = ((N * B : Nat) : Int) :=
    wrap32_eq_self (by omega) (by omega)
  have h3 : wrap32 (((N * B : Nat) : Int) + 512) = ((512 + N * B : Nat) : Int) := by
    rw [wrap32_eq_self (by omega) (by omega)]; omega
  have h4 : toU32 (B : Int) = B := by
    rw [toU32_eq_self (by omega) (by omega)]; exact Int.toNat_natCast _
  rw [h1, h2, h3, h4]
  have hlen := readn_length_le file (512 + N * B) B
  rw [if_neg (by omega), if_neg (by omega)]
  simp only [Int.toNat_natCast]
  have h5 := wrap32_eq_self (x := ((readn file (512 + N * B) B).length : Int))
    (by omega) (by omega)
  simp only [h5, Nat.cast_inj]

theorem spec_read_big_block_some {file : List Byte} {log2 n : Nat} {data : List Byte}
    (h : spec_read_big_block file log2 n = some data) :
    data = readn file (512 + n * 2 ^ log2) (2 ^ log2) ∧ data.length = 2 ^ log2 := by
  unfold spec_read_big_block at h
  split at h
  · rename_i hlen
    injection h with h
    subst h
    exact ⟨rfl, hlen⟩
  · exact absurd h (by simp)

theorem spec_read_big_block_isSome (file : List Byte) (log2 n : Nat) :
    (spec_read_big_block file log2 n).isSome
      = decide ((readn file (512 + n * 2 ^ log2) (2 ^ log2)).length = 2 ^ log2) := by
  unfold spec_read_big_block
  split <;> simp [*]

theorem wrap32_natCast (v : Nat) (h : v < 4294967296) :
    wrap32 (v : Int) = if v < 2147483648 then (v : Int) else (v : Int) - 4294967296 := by
  unfold wrap32; split <;> split <;> omega

theorem readS32_blit (sec : List Byte) (m : Mem) (a : Int) (i : Nat) (ha : a = (i : Int))
    (hi : 4 * i + 3 < sec.length) : readS32 (blit sec m) (4 * a) = spec_entry sec i := by
  subst ha
  have e0 : (4 * (i : Int)) = ((4 * i : Nat) : Int) := by push_cast; rfl
  have e1 : (4 * (i : Int)) + 1 = ((4 * i + 1 : Nat) : Int) := by push_cast; rfl
  have e2 : (4 * (i : Int)) + 2 = ((4 * i + 2 : Nat) : Int) := by push_cast; rfl
  have e3 : (4 * (i : Int)) + 3 = ((4 * i + 3 : Nat) : Int) := by push_cast; rfl
  unfold readS32 readU32 spec_entry
  rw [e1, e2, e3, e0, blit_of_lt _ _ _ (by omega), blit_of_lt _ _ _ (by omega),
    blit_of_lt _ _ _ (by omega), blit_of_lt _ _ _ hi]
  simp only [List.getD_eq_getElem?_getD, List.getElem?_eq_getElem hi,
    List.getElem?_eq_getElem (show 4 * i < sec.length by omega),
    List.getElem?_eq_getElem (show 4 * i + 1 < sec.length by omega),
    List.getElem?_eq_getElem (show 4 * i + 2 < sec.length by omega), Option.getD_some]
  have b0 := (sec[4 * i]).isLt
  have b1 := (sec[4 * i + 1]).isLt
  have b2 := (sec[4 * i + 2]).isLt
  have b3 := (sec[4 * i + 3]).isLt
  rw [wrap32_natCast _ (by omega)]

theorem spec_sector_some {file : List Byte} {n : Int} {sec : List Byte}
    (h : spec_sector file n = some sec) :
    0 ≤ n ∧ sec = readn file (512 + n.toNat * 512) 512 ∧ sec.length = 512 ∧
      512 + n.toNat * 512 + 512 ≤ file.length := by
  unfold spec_sector at h
  split at h
  · rename_i hn
    obtain ⟨h1, h2⟩ := spec_read_big_block_some h
    norm_num at h1 h2
    refine ⟨hn, h1, h2, ?_⟩
    rw [h1, readn_length_iff] at h2
    omega
  · exact absurd h (by simp)

/-- A sector inside an image below 2 GiB is what `ole2_read_block` delivers. -/
theorem read_block_of_sector (env : Env) (file : List Byte) (hdr : ole2_header_t) (buff : Mem)
    (n : Int) (sec : List Byte) (hlog : hdr.log2_big_block_size = 9)
    (hsize : file.length < 2147483648) (h : spec_sector file n = some sec) :
    ole2_read_block env file hdr buff n = (true, blit sec buff) := by
  obtain ⟨hn, hsec, hlen, hin⟩ := spec_sector_some h
  have hoff : 512 + n * 2 ^ hdr.log2_big_block_size < 2147483648 := by
    rw [hlog]; omega
  rw [ole2_read_block_eq env file hdr buff n (by omega) hn hoff, hlog]
  norm_num
  rw [← hsec]
  exact ⟨hlen, rfl⟩

theorem tdiv_natCast (a b : Nat) : Int.tdiv (a : Int) (b : Int) = ((a / b : Nat) : Int) := by
  rw [Int.tdiv_eq_ediv (by positivity) (by positivity)]; norm_cast

theorem tmod_natCast (a b : Nat) : Int.tmod (a : Int) (b : Int) = ((a % b : Nat) : Int) := by
  rw [Int.tmod_eq_emod (by positivity) (by positivity)]; norm_cast

/-- The direct FAT lookup of the code on an image with 512-byte blocks. -/
theorem next_bat_block_eq (env : Env) (file : List Byte) (hdr : ole2_header_t) (current : Nat)
    (sec : List Byte) (hlog : hdr.log2_big_block_size = 9) (hsize : file.length < 2147483648)
    (hcnt : ((current / 128 : Nat) : Int) ≤ hdr.bat_count)
    (hsec : spec_sector file (hdr.bat_array ((current / 128 : Nat) : Int)) = some sec) :
    ole2_get_next_bat_block env file hdr (current : Int) = spec_entry sec (current % 128) := by
  unfold ole2_get_next_bat_block
  have h128 : (128 : Int) = ((128 : Nat) : Int) := rfl
  rw [h128, tdiv_natCast]
  simp only [gt_iff_lt]
  rw [if_neg (by omega), read_block_of_sector env file hdr env.junk _ sec hlog hsize hsec]
  have hlen := (spec_sector_some hsec).2.2.1
  apply readS32_blit
  · omega
  · omega

theorem spec_xbat_sector_head {file : List Byte} {k : Nat} {s : Int} {xsec : List Byte}
    (h : spec_xbat_sector file k s = some xsec) : ∃ sec, spec_sector file s = some sec := by
  cases k with
  | zero => exact ⟨xsec, h⟩
  | succ k =>
    unfold spec_xbat_sector at h
    cases hs : spec_sector file s with
    | none => rw [hs] at h; exact absurd h (by simp)
    | some sec => exact ⟨sec, rfl⟩

theorem xbat_advance_succ (env : Env) (file : List Byte) (hdr : ole2_header_t) (n : Nat)
    (xbat : Mem) :
    xbat_advance env file hdr (n + 1) xbat
      = xbat_advance env file hdr n (xbat_step env file hdr xbat) := by
  unfold xbat_advance
  exact Function.iterate_succ_apply _ _ _

/-- The loop over the XBAT chain ends on the sector the specification names. -/
theorem xbat_advance_eq (env : Env) (file : List Byte) (hdr : ole2_header_t)
    (hlog : hdr.log2_big_block_size = 9) (hsize : file.length < 2147483648) (xsec : List Byte) :
    ∀ (k : Nat) (s : Int) (m : Mem) (sec0 : List Byte), spec_sector file s = some sec0 →
      spec_xbat_sector file k s = some xsec →
      ∃ m1, xbat_advance env file hdr k (blit sec0 m) = blit xsec m1 := by
  intro k
  induction k with
  | zero =>
    intro s m sec0 h0 hk
    unfold spec_xbat_sector at hk
    rw [h0] at hk
    injection hk with hk
    subst hk
    exact ⟨m, by unfold xbat_advance; exact Function.iterate_zero_apply _ _⟩
  | succ k ih =>
    intro s m sec0 h0 hk
    unfold spec_xbat_sector at hk
    rw [h0] at hk
    simp only at hk
    obtain ⟨sec1, h1⟩ := spec_xbat_sector_head hk
    have hlen := (spec_sector_some h0).2.2.1
    have hr : readS32 (blit sec0 m) (4 * 127) = spec_entry sec0 127 :=
      readS32_blit sec0 m 127 127 rfl (by omega)
    rw [xbat_advance_succ]
    unfold xbat_step
    rw [hr, read_block_of_sector env file hdr _ _ sec1 hlog hsize h1]
    exact ih _ _ sec1 h1 hk

theorem spec_xbat_sector_length {file : List Byte} {xsec : List Byte} :
    ∀ (k : Nat) (s : Int), spec_xbat_sector file k s = some xsec → xsec.length = 512 := by
  intro k
  induction k with
  | zero =>
    intro s h
    exact (spec_sector_some h).2.2.1
  | succ k ih =>
    intro s h
    unfold spec_xbat_sector at h
    cases hs : spec_sector file s with
    | none => rw [hs] at h; exact absurd h (by simp)
    | some sec =>
      rw [hs] at h
      exact ih _ h

/-- The XBAT lookup of the code on an image with 512-byte blocks. -/
theorem next_xbat_block_eq (env : Env) (file : List Byte) (hdr : ole2_header_t) (current : Nat)
    (v : Int) (hlog : hdr.log2_big_block_size = 9) (hsize : file.length < 2147483648)
    (hidx : 109 ≤ current / 128) (hspec : spec_next_big_xbat file hdr current = some v) :
    ole2_get_next_xbat_block env file hdr (current : Int) = v := by
  unfold spec_next_big_xbat at hspec
  simp only at hspec
  cases hx : spec_xbat_sector file ((current / 128 - 109) / 127) hdr.xbat_start with
  | none => rw [hx] at hspec; exact absurd hspec (by simp)
  | some xsec =>
    rw [hx] at hspec
    simp only at hspec
    cases hf : spec_sector file (spec_entry xsec ((current / 128 - 109) % 127)) with
    | none => rw [hf] at hspec; exact absurd hspec (by simp)
    | some fsec =>
      rw [hf] at hspec
      simp only [Option.some.injEq] at hspec
      obtain ⟨sec0, h0⟩ := spec_xbat_sector_head hx
      obtain ⟨m1, hm1⟩ := xbat_advance_eq env file hdr hlog hsize xsec _ _ env.junk sec0 h0 hx
      have hd : ((current / 128 : Nat) : Int) - 109 = ((current / 128 - 109 : Nat) : Int) := by
        omega
      have h128 : (128 : Int) = ((128 : Nat) : Int) := rfl
      have h127 : (127 : Int) = ((127 : Nat) : Int) := rfl
      have hxl : xsec.length = 512 := spec_xbat_sector_length _ _ hx
      have hfl : fsec.length = 512 := (spec_sector_some hf).2.2.1
      have hlt : (current / 128 - 109) % 127 < 127 := Nat.mod_lt _ (by norm_num)
      have hlt2 : current % 128 < 128 := Nat.mod_lt _ (by norm_num)
      unfold ole2_get_next_xbat_block
      simp only
      rw [h128, tdiv_natCast, tmod_natCast, hd, h127, tdiv_natCast, tmod_natCast,
        Int.toNat_natCast, read_block_of_sector env file hdr _ _ sec0 hlog hsize h0, hm1,
        readS32_blit xsec m1 _ _ rfl (by omega),
        read_block_of_sector env file hdr _ _ fsec hlog hsize hf,
        readS32_blit fsec _ _ _ rfl (by omega)]
      exact hspec

theorem img_parts_length :
    img_header.length = 512 ∧ img_fat.length = 512 ∧ img_dir.length = 512 ∧
      img_minifat.length = 512 ∧ img_ministream.length = 512 := by
  decide!

theorem img_length : img.length = 7680 := by
  obtain ⟨h1, h2, h3, h4, h5⟩ := img_parts_length
  simp only [img, List.length_append, List.length_replicate, h1, h2, h3, h4, h5]

theorem img_size : img.length < 2147483648 := by
  rw [img_length]; norm_num

theorem img_xbat_size : img_xbat.length < 2147483648 := by
  simp only [img_xbat, magic_id, List.length_append, List.length_replicate, List.length_cons,
    List.length_nil]
  norm_num

theorem img_loop_size : img_loop.length < 2147483648 := by
  simp only [img_loop, magic_id, List.length_append, List.length_replicate, List.length_cons,
    List.length_nil]
  norm_num

/-- C10, as stated, fails: for the header of `img_loop` (512-byte blocks) and block index
`n = 8388608` the offset computed in `int` is 512, not `512 + n * 512`; the read succeeds
on the 1024-byte image although the file holds no byte at the exact offset. -/
theorem ole2_read_block_offset_wraps :
    block_offset (read_header env0 img_loop) 8388608 = 512 ∧
    (ole2_read_block env0 img_loop (read_header env0 img_loop) env0.junk 8388608).1 = true ∧
    spec_read_big_block img_loop (read_header env0 img_loop).log2_big_block_size 8388608
      = none := by
  decide!

/-- C10 (amended): for every header with `log2_big_block_size <= 30` and every block index
`n >= 0` whose offset `512 + n * 2 ^ log2_big_block_size` is below `2 ^ 31` (the range of
`int`), `ole2_read_block` seeks to exactly that offset, succeeds exactly when the file
holds `2 ^ log2_big_block_size` bytes there, and then stores exactly those bytes at the
start of the buffer. -/
theorem ole2_read_block_offset_exact (env : Env) (file : List Byte) (hdr : ole2_header_t)
    (buff : Mem) (n : Int) (hlog : hdr.log2_big_block_size ≤ 30) (hn : 0 ≤ n)
    (hoff : 512 + n * 2 ^ hdr.log2_big_block_size < 2147483648) :
    block_offset hdr n = 512 + n * 2 ^ hdr.log2_big_block_size ∧
    (ole2_read_block env file hdr buff n).1
      = (spec_read_big_block file hdr.log2_big_block_size n.toNat).isSome ∧
    ∀ data, spec_read_big_block file hdr.log2_big_block_size n.toNat = some data →
      data.length = 2 ^ hdr.log2_big_block_size ∧
      ole2_read_block env file hdr buff n = (true, blit data buff) := by
  refine ⟨?_, ?_, ?_⟩
  · have hB := two_pow_le_of_le_30 hlog
    unfold block_offset
    rw [two_pow_cast] at hoff ⊢
    have hM : (0 : Int) ≤ n * ((2 ^ hdr.log2_big_block_size : Nat) : Int) := by positivity
    rw [wrap32_eq_self (x := n * ((2 ^ hdr.log2_big_block_size : Nat) : Int)) (by omega)
      (by omega), wrap32_eq_self (by omega) (by omega)]
    omega
  · rw [ole2_read_block_eq env file hdr buff n hlog hn hoff, spec_read_big_block_isSome]
  · intro data hdata
    obtain ⟨hd, hl⟩ := spec_read_big_block_some hdata
    rw [ole2_read_block_eq env file hdr buff n hlog hn hoff, ← hd]
    exact ⟨hl, by simp [hl]⟩

theorem ole2_read_block_offset_exact_witness :
    block_offset (read_header env0 img) 4 = 512 + 4 * 2 ^ (read_header env0 img).log2_big_block_size ∧
    (ole2_read_block env0 img (read_header env0 img) env0.junk 4).1
      = (spec_read_big_block img (read_header env0 img).log2_big_block_size (4 : Int).toNat).isSome ∧
    ∀ data, spec_read_big_block img (read_header env0 img).log2_big_block_size (4 : Int).toNat
        = some data →
      data.length = 2 ^ (read_header env0 img).log2_big_block_size ∧
      ole2_read_block env0 img (read_header env0 img) env0.junk 4 = (true, blit data env0.junk) :=
  ole2_read_block_offset_exact env0 img (read_header env0 img) env0.junk 4
    (by decide!) (by decide!) (by decide!)

/-! ## C8: FAT walker, direct path -/

/-- C8, as stated, fails: `img_1k` has 1024-byte blocks (`entries_per_block = 256`) and
`bat_count = 0`; for `current = 128` the FAT sector index of the claim is `128 / 256 = 0`,
below 109 and not above `bat_count`, and entry 128 of the big block `bat_array[0]` is 7.
The code divides by the constant 128, finds index 1 above `bat_count` and returns -10. -/
theorem next_block_number_fixed_128 :
    spec_next_big_direct img_1k (read_header env0 img_1k) 128 = some 7 ∧
    ole2_get_next_block_number env0 img_1k (read_header env0 img_1k) 128 = -10 := by
  decide!

/-- C8 (amended): for every header with `log2_big_block_size = 9` (128 entries per block,
the constant of the code), every image below 2 GiB and every block index `current >= 0`
with `fat_sector_index = current / 128 < 109` and not exceeding `bat_count`, if the big
block `bat_array[fat_sector_index]` lies inside the file then
`ole2_get_next_block_number` and `ole2_get_next_bat_block` return its signed little-endian
32-bit entry number `current mod 128`, which is the value of the specification. -/
theorem next_block_number_direct (env : Env) (file : List Byte) (hdr : ole2_header_t)
    (current : Nat) (sec : List Byte) (hlog : hdr.log2_big_block_size = 9)
    (hsize : file.length < 2147483648) (hidx : current / 128 < 109)
    (hcnt : ((current / 128 : Nat) : Int) ≤ hdr.bat_count)
    (hsec : spec_sector file (hdr.bat_array ((current / 128 : Nat) : Int)) = some sec) :
    ole2_get_next_block_number env file hdr (current : Int) = spec_entry sec (current % 128) ∧
    ole2_get_next_bat_block env file hdr (current : Int) = spec_entry sec (current % 128) ∧
    spec_next_big_direct file hdr current = some (spec_entry sec (current % 128)) := by
  have hbat := next_bat_block_eq env file hdr current sec hlog hsize hcnt hsec
  refine ⟨?_, hbat, ?_⟩
  · unfold ole2_get_next_block_number
    have h128 : (128 : Int) = ((128 : Nat) : Int) := rfl
    rw [h128, tdiv_natCast, if_neg (by omega)]
    exact hbat
  · have hnn := (spec_sector_some hsec).1
    unfold spec_sector at hsec
    rw [if_pos hnn] at hsec
    have e : 2 ^ 9 / 4 = 128 := by norm_num
    unfold spec_next_big_direct
    simp only [hlog, e]
    rw [if_neg (by omega), if_neg (by omega), hsec]

theorem next_block_number_direct_witness :
    ole2_get_next_block_number env0 img (read_header env0 img) ((4 : Nat) : Int)
      = spec_entry img_fat (4 % 128) ∧
    ole2_get_next_bat_block env0 img (read_header env0 img) ((4 : Nat) : Int)
      = spec_entry img_fat (4 % 128) ∧
    spec_next_big_direct img (read_header env0 img) 4 = some (spec_entry img_fat (4 % 128)) :=
  next_block_number_direct env0 img (read_header env0 img) 4 img_fat (by decide!) img_size
    (by decide!) (by decide!) (by decide!)

/-! ## C9: FAT walker, XBAT path -/

/-- C9: for every image with 512-byte big blocks (below 2 GiB, the range of the `int`
offset) and every `current >= 0` with `fat_sector_index = current / 128 >= 109`, let
`d = fat_sector_index - 109`; if the XBAT sector reached from `xbat_start` by following
the tail pointer (entry 127) `d / 127` times and the FAT sector named in its slot
`d mod 127` are readable, `ole2_get_next_block_number` returns entry `current mod 128` of
that FAT sector. -/
theorem next_block_number_xbat (env : Env) (file : List Byte) (hdr : ole2_header_t)
    (current : Nat) (v : Int) (hlog : hdr.log2_big_block_size = 9)
    (hsize : file.length < 2147483648) (hidx : 109 ≤ current / 128)
    (hspec : spec_next_big_xbat file hdr current = some v) :
    ole2_get_next_block_number env file hdr (current : Int) = v := by
  unfold ole2_get_next_block_number
  have h128 : (128 : Int) = ((128 : Nat) : Int) := rfl
  rw [h128, tdiv_natCast, if_pos (by omega)]
  exact next_xbat_block_eq env file hdr current v hlog hsize hidx hspec

theorem next_block_number_xbat_witness :
    ole2_get_next_block_number env0 img_xbat (read_header env0 img_xbat) ((30213 : Nat) : Int)
      = 77 :=
  next_block_number_xbat env0 img_xbat (read_header env0 img_xbat) 30213 77 (by decide!)
    img_xbat_size (by decide!) (by decide!)

/-! ## C3, C4: the magic and the return value -/

theorem strncmp_eq_zero_of_eq (s1 s2 : Nat → Byte) :
    ∀ (n i : Nat), (∀ j, i ≤ j → j < i + n → s1 j = s2 j) → strncmp s1 s2 i n = 0 := by
  intro n
  induction n with
  | zero => intro i _; rfl
  | succ n ih =>
    intro i h
    unfold strncmp
    rw [if_neg (by simpa using h i (le_refl i) (by omega))]
    split
    · rfl
    · exact ih (i + 1) (fun j h1 h2 => h j (by omega) (by omega))

theorem strncmp_ne_zero (s1 s2 : Nat → Byte) :
    ∀ (n i : Nat), (∀ j, i ≤ j → j < i + n → (s2 j).val ≠ 0) →
      (∃ j, i ≤ j ∧ j < i + n ∧ s1 j ≠ s2 j) → strncmp s1 s2 i n ≠ 0 := by
  intro n
  induction n with
  | zero =>
    intro i _ h
    obtain ⟨j, h1, h2, _⟩ := h
    omega
  | succ n ih =>
    intro i hz h
    obtain ⟨j, h1, h2, h3⟩ := h
    unfold strncmp
    by_cases hi : s1 i = s2 i
    · have hv : (s1 i).val ≠ 0 := by rw [hi]; exact hz i (le_refl i) (by omega)
      have hji : j ≠ i := fun e => h3 (e ▸ hi)
      rw [if_neg (by simpa using hi), if_neg hv]
      exact ih (i + 1) (fun k k1 k2 => hz k (by omega) (by omega)) ⟨j, by omega, by omega, h3⟩
    · rw [if_pos hi]
      have hv : (s1 i).val ≠ (s2 i).val := fun e => hi (Fin.ext e)
      omega

theorem read_header_magic (env : Env) (file : List Byte) (k : Nat) (h1 : k < file.length)
    (h2 : k < 512) : (read_header env file).magic k = file.getD k 0 := by
  have hl : k < (readn file 0 512).length := by
    unfold readn; simp; omega
  show blit (readn file 0 512) env.junk (k : Int) = file.getD k 0
  rw [blit_of_lt _ _ _ hl]
  unfold readn
  simp [List.getD_eq_getElem?_getD, List.getElem?_eq_getElem h1]

theorem magic_mismatch (file : List Byte) (h : file.take 8 ≠ magic_id.take file.length) :
    ∃ k, k < 8 ∧ k < file.length ∧ file.getD k 0 ≠ magic_id.getD k 0 := by
  by_contra hcon
  push_neg at hcon
  apply h
  have hm : magic_id.length = 8 := rfl
  apply List.ext_getElem
  · simp [hm, Nat.min_comm]
  · intro i h1 h2
    have hi8 : i < 8 := by simp at h1; omega
    have hil : i < file.length := by simp at h1; omega
    have := hcon i hi8 hil
    simp only [List.getD_eq_getElem?_getD, List.getElem?_eq_getElem hil,
      List.getElem?_eq_getElem (show i < magic_id.length by omega), Option.getD_some] at this
    simp [this]

theorem magic_nonzero : ∀ j, 0 ≤ j → j < 0 + 8 → ((fun i => magic_id.getD i 0) j).val ≠ 0 := by
  intro j _ h
  have : j = 0 ∨ j = 1 ∨ j = 2 ∨ j = 3 ∨ j = 4 ∨ j = 5 ∨ j = 6 ∨ j = 7 := by omega
  rcases this with h | h | h | h | h | h | h | h <;> subst h <;> decide

theorem ole2_extract_with_bad_magic {σ : Type} (env : Env) (file : List Byte)
    (handler : ole2_header_t → property_t → σ → Option σ) (fuel : Nat) (s : σ)
    (hne : file.take 8 ≠ magic_id.take file.length) :
    ole2_extract_with env file handler fuel s = some (env.CL_EOLE2, s) := by
  obtain ⟨k, hk8, hkl, hk⟩ := magic_mismatch file hne
  have hcmp : strncmp (read_header env file).magic (fun i => magic_id.getD i 0) 0 8 ≠ 0 := by
    apply strncmp_ne_zero _ _ 8 0 magic_nonzero
    refine ⟨k, by omega, by omega, ?_⟩
    rw [read_header_magic env file k hkl (by omega)]
    exact hk
  unfold ole2_extract_with
  simp only [hcmp, ne_eq, not_false_eq_true, if_true]

theorem ole2_extract_with_zero {σ : Type} (env : Env) (file : List Byte)
    (handler : ole2_header_t → property_t → σ → Option σ) (fuel : Nat) (s : σ) (r : Int × σ)
    (hmagic : file.take 8 = magic_id) (hres : ole2_extract_with env file handler fuel s = some r) :
    r.1 = 0 := by
  have hlen : 8 ≤ file.length := by
    have := congrArg List.length hmagic
    simp at this
    have hm : magic_id.length = 8 := rfl
    omega
  have hcmp : strncmp (read_header env file).magic (fun i => magic_id.getD i 0) 0 8 = 0 := by
    apply strncmp_eq_zero_of_eq
    intro j _ hj
    rw [read_header_magic env file j (by omega) (by omega)]
    have : (file.take 8).getD j 0 = magic_id.getD j 0 := by rw [hmagic]
    simpa [List.getD_eq_getElem?_getD, List.getElem?_take, show j < 8 by omega] using this
  unfold ole2_extract_with at hres
  simp only [hcmp, ne_eq, not_true_eq_false, if_false] at hres
  split at hres
  · exact absurd hres (by simp)
  · injection hres with hres
    rw [← hres]

/-- The magic test on the bytes the file holds (the part of C3 that the code satisfies):
for every input in which one of the first 8 bytes that are present differs from the magic
`D0 CF 11 E0 A1 B1 1A E1`, whatever bytes they are, `cli_ole2_extract` returns `CL_EOLE2`
and creates no file; and whatever handler is passed to `ole2_read_property_tree` in its
place, the handler is never invoked: its state is returned unchanged.  An input shorter
than 8 bytes that is a prefix of the magic is not covered. -/
theorem cli_ole2_extract_bad_magic (env : Env) (fuel : Nat) (file : List Byte)
    (hne : file.take 8 ≠ magic_id.take file.length) :
    cli_ole2_extract env fuel file = some (env.CL_EOLE2, []) ∧
    ∀ (σ : Type) (handler : ole2_header_t → property_t → σ → Option σ) (s : σ),
      ole2_extract_with env file handler fuel s = some (env.CL_EOLE2, s) :=
  ⟨ole2_extract_with_bad_magic env file _ fuel [] hne,
    fun _ handler s => ole2_extract_with_bad_magic env file handler fuel s hne⟩

theorem cli_ole2_extract_bad_magic_witness :
    cli_ole2_extract env0 5 img_bad_magic = some (env0.CL_EOLE2, []) ∧
    ∀ (σ : Type) (handler : ole2_header_t → property_t → σ → Option σ) (s : σ),
      ole2_extract_with env0 img_bad_magic handler 5 s = some (env0.CL_EOLE2, s) :=
  cli_ole2_extract_bad_magic env0 5 img_bad_magic (by decide!)

/-- C4: for every input whose first 8 bytes equal the magic, every environment (contents
of uninitialised memory, failing `open` and `writen`) and every amount of fuel on which
the extraction terminates, `cli_ole2_extract` returns 0. -/
theorem cli_ole2_extract_returns_zero (env : Env) (fuel : Nat) (file : List Byte)
    (r : Int × List Output) (hmagic : file.take 8 = magic_id)
    (hres : cli_ole2_extract env fuel file = some r) : r.1 = 0 :=
  ole2_extract_with_zero env file _ fuel [] r hmagic hres

theorem cli_ole2_extract_returns_zero_witness :
    cli_ole2_extract env0 2 img_truncated =
      some (0, [Output.mk [0x46, 0x6f, 0x6f] [0, 1, 2, 3, 4, 5, 6, 7, 8, 9],
        Output.mk [0x42, 0x69, 0x67] []]) ∧
    ((0 : Int), [Output.mk [0x46, 0x6f, 0x6f] [0, 1, 2, 3, 4, 5, 6, 7, 8, 9],
      Output.mk [0x42, 0x69, 0x67] []]).1 = 0 :=
  ⟨by decide!, cli_ole2_extract_returns_zero env0 2 img_truncated _ (by decide!) (by decide!)⟩

/-! ## The walk over the property directory -/

theorem read_block_congr (env : Env) (file : List Byte) (hdr1 hdr2 : ole2_header_t)
    (h : hdr1.raw = hdr2.raw) (buff : Mem) (n : Int) :
    ole2_read_block env file hdr1 buff n = ole2_read_block env file hdr2 buff n := by
  simp only [ole2_read_block, block_offset, big_block_size,
    ole2_header_t.log2_big_block_size, h]

theorem next_bat_block_congr (env : Env) (file : List Byte) (hdr1 hdr2 : ole2_header_t)
    (h : hdr1.raw = hdr2.raw) (b : Int) (hb : Int.tdiv b 128 ≠ 109) :
    ole2_get_next_bat_block env file hdr1 b = ole2_get_next_bat_block env file hdr2 b := by
  simp only [ole2_get_next_bat_block, ole2_header_t.bat_count, ole2_header_t.bat_array, h,
    if_neg hb, read_block_congr env file hdr1 hdr2 h]

theorem xbat_advance_congr (env : Env) (file : List Byte) (hdr1 hdr2 : ole2_header_t)
    (h : hdr1.raw = hdr2.raw) (n : Nat) (x : Mem) :
    xbat_advance env file hdr1 n x = xbat_advance env file hdr2 n x := by
  have : xbat_step env file hdr1 = xbat_step env file hdr2 := by
    funext y
    simp only [xbat_step, read_block_congr env file hdr1 hdr2 h]
  simp only [xbat_advance, this]

theorem next_xbat_block_congr (env : Env) (file : List Byte) (hdr1 hdr2 : ole2_header_t)
    (h : hdr1.raw = hdr2.raw) (b : Int) :
    ole2_get_next_xbat_block env file hdr1 b = ole2_get_next_xbat_block env file hdr2 b := by
  simp only [ole2_get_next_xbat_block, ole2_header_t.xbat_start, h,
    read_block_congr env file hdr1 hdr2 h, xbat_advance_congr env file hdr1 hdr2 h]

theorem next_block_number_congr (env : Env) (file : List Byte) (hdr1 hdr2 : ole2_header_t)
    (h : hdr1.raw = hdr2.raw) (b : Int) :
    ole2_get_next_block_number env file hdr1 b = ole2_get_next_block_number env file hdr2 b := by
  unfold ole2_get_next_block_number
  split
  · exact next_xbat_block_congr env file hdr1 hdr2 h b
  · exact next_bat_block_congr env file hdr1 hdr2 h b (by omega)

theorem property_entries_raw {σ : Type} (handler : ole2_header_t → property_t → σ → Option σ)
    (prop_block : Mem) :
    ∀ (l : List Nat) (hdr : ole2_header_t) (s : σ) (hdr1 : ole2_header_t) (s1 : σ),
      property_entries handler prop_block l hdr s = some (hdr1, s1) → hdr1.raw = hdr.raw := by
  intro l
  induction l with
  | nil =>
    intro hdr s hdr1 s1 h
    unfold property_entries at h
    injection h with h
    injection h with h1 h2
    rw [← h1]
  | cons index rest ih =>
    intro hdr s hdr1 s1 h
    unfold property_entries at h
    split at h
    · simp only at h
      split at h
      · exact absurd h (by simp)
      · have := ih _ _ _ _ h
        rw [this]
        split <;> rfl
    · exact ih _ _ _ _ h

theorem property_tree_loop_neg {σ : Type} (env : Env) (file : List Byte)
    (handler : ole2_header_t → property_t → σ → Option σ) (fuel : Nat) (hdr : ole2_header_t)
    (pb : Mem) (cur : Int) (s : σ) (h : cur < 0) :
    property_tree_loop env file handler fuel hdr pb cur s = some (hdr, s) := by
  unfold property_tree_loop
  rw [if_neg (by omega)]

theorem property_tree_loop_zero {σ : Type} (env : Env) (file : List Byte)
    (handler : ole2_header_t → property_t → σ → Option σ) (hdr : ole2_header_t)
    (pb : Mem) (cur : Int) (s : σ) (h : 0 ≤ cur) :
    property_tree_loop env file handler 0 hdr pb cur s = none := by
  unfold property_tree_loop
  rw [if_pos (by omega)]

theorem property_tree_loop_succ {σ : Type} (env : Env) (file : List Byte)
    (handler : ole2_header_t → property_t → σ → Option σ) (fuel : Nat) (hdr : ole2_header_t)
    (pb : Mem) (cur : Int) (s : σ) (h : 0 ≤ cur) :
    property_tree_loop env file handler (fuel + 1) hdr pb cur s =
      match property_tree_pass env file handler hdr pb cur s with
      | none => none
      | some (hdr1, s1) =>
        property_tree_loop env file handler fuel hdr1 (read_block_buff env file hdr pb cur)
          (ole2_get_next_block_number env file hdr1 cur) s1 := by
  rw [property_tree_loop, if_pos (by omega)]

/-- The loop of `ole2_read_property_tree` is the flat enumeration of the blocks of the
directory chain, when there is fuel for each of them. -/
theorem property_tree_loop_eq_walk {σ : Type} (env : Env) (file : List Byte)
    (handler : ole2_header_t → property_t → σ → Option σ) :
    ∀ (ps : List Int) (n : Nat) (fuel : Nat) (hdr0 hdr : ole2_header_t) (pb : Mem) (cur : Int)
      (s : σ), hdr.raw = hdr0.raw → big_chain env file hdr0 n cur = some ps →
      property_tree_loop env file handler fuel hdr pb cur s =
        if ps.length ≤ fuel then walk_blocks env file handler ps hdr pb s else none := by
  intro ps
  induction ps with
  | nil =>
    intro n fuel hdr0 hdr pb cur s hraw hch
    have hneg : cur < 0 := by
      unfold big_chain at hch
      by_contra hc
      rw [if_neg hc] at hch
      cases n with
      | zero => simp at hch
      | succ n =>
        simp only at hch
        split at hch <;> simp at hch
    rw [property_tree_loop_neg _ _ _ _ _ _ _ _ hneg]
    simp [walk_blocks]
  | cons p ps ih =>
    intro n fuel hdr0 hdr pb cur s hraw hch
    unfold big_chain at hch
    have hnn : ¬ cur < 0 := by
      intro hc
      rw [if_pos hc] at hch
      simp at hch
    rw [if_neg hnn] at hch
    cases n with
    | zero => simp at hch
    | succ n =>
      simp only at hch
      cases hrec : big_chain env file hdr0 n (ole2_get_next_block_number env file hdr0 cur) with
      | none => rw [hrec] at hch; simp at hch
      | some bs =>
        rw [hrec] at hch
        simp only [Option.some.injEq, List.cons.injEq] at hch
        obtain ⟨hp, hbs⟩ := hch
        subst hp hbs
        cases fuel with
        | zero =>
          rw [property_tree_loop_zero _ _ _ _ _ _ _ (by omega)]
          simp
        | succ fuel =>
          rw [property_tree_loop_succ _ _ _ _ _ _ _ _ (by omega)]
          unfold walk_blocks
          cases he : property_tree_pass env file handler hdr pb cur s with
          | none => simp
          | some r =>
            obtain ⟨hdr1, s1⟩ := r
            have hraw1 : hdr1.raw = hdr0.raw :=
              (property_entries_raw handler _ _ _ _ _ _ he).trans hraw
            simp only
            rw [next_block_number_congr env file hdr1 hdr0 hraw1,
              ih n fuel hdr0 hdr1 _ _ s1 hraw1 hrec]
            simp only [List.length_cons, Nat.add_le_add_iff_right]

theorem read_block_buff_eq (env : Env) (file : List Byte) (hdr : ole2_header_t) (buff : Mem)
    (n : Int) (hlog : hdr.log2_big_block_size ≤ 30) (hn : 0 ≤ n)
    (hoff : 512 + n * 2 ^ hdr.log2_big_block_size < 2147483648) :
    read_block_buff env file hdr buff n =
      blit (readn file (512 + n.toNat * 2 ^ hdr.log2_big_block_size)
        (2 ^ hdr.log2_big_block_size)) buff := by
  unfold read_block_buff
  rw [ole2_read_block_eq env file hdr buff n hlog hn hoff]

theorem property_entries_skip {σ : Type} (handler : ole2_header_t → property_t → σ → Option σ)
    (pb : Mem) (hdr : ole2_header_t) (s : σ) :
    ∀ (l : List Nat), (∀ j ∈ l, (prop_at pb j).type = 0) →
      property_entries handler pb l hdr s = some (hdr, s) := by
  intro l
  induction l with
  | nil => intro _; rfl
  | cons j rest ih =>
    intro h
    unfold property_entries
    rw [if_neg (by rw [h j (List.mem_cons_self _ _)]; omega)]
    exact ih (fun k hk => h k (List.mem_cons_of_mem _ hk))

theorem img_loop_block0 :
    (read_header env0 img_loop).log2_big_block_size = 9 ∧
      readn img_loop 512 512 = List.replicate 512 0 ∧
      ole2_get_next_block_number env0 img_loop (read_header env0 img_loop) 0 = 0 ∧
      (read_header env0 img_loop).prop_start = 0 ∧
      strncmp (read_header env0 img_loop).magic (fun i => magic_id.getD i 0) 0 8 = 0 := by
  decide!

/-- On `img_loop` the loop of `ole2_read_property_tree` never ends, whatever the handler. -/
theorem img_loop_diverges {σ : Type} (handler : ole2_header_t → property_t → σ → Option σ) :
    ∀ (fuel : Nat) (pb : Mem) (s : σ),
      property_tree_loop env0 img_loop handler fuel (read_header env0 img_loop) pb 0 s
        = none := by
  obtain ⟨hlog, hblk, hnext, _, _⟩ := img_loop_block0
  intro fuel
  induction fuel with
  | zero => intro pb s; exact property_tree_loop_zero _ _ _ _ _ _ _ (le_refl 0)
  | succ fuel ih =>
    intro pb s
    have hbuf : read_block_buff env0 img_loop (read_header env0 img_loop) pb 0
        = blit (List.replicate 512 0) pb := by
      rw [read_block_buff_eq _ _ _ _ _ (by omega) (le_refl 0) (by rw [hlog]; norm_num), hlog]
      norm_num
      rw [hblk]
    have hpass : property_tree_pass env0 img_loop handler (read_header env0 img_loop) pb 0 s
        = some (read_header env0 img_loop, s) := by
      unfold property_tree_pass
      rw [hbuf]
      apply property_entries_skip
      intro j hj
      have hj4 : j < 4 := by simp at hj; omega
      show (blit (List.replicate 512 0) pb (128 * (j : Int) + 66)).val = 0
      have e : 128 * (j : Int) + 66 = ((128 * j + 66 : Nat) : Int) := by push_cast; rfl
      rw [e, blit_of_lt _ _ _ (by rw [List.length_replicate]; omega), List.getElem_replicate]
      rfl
    rw [property_tree_loop_succ _ _ _ _ _ _ _ _ (le_refl 0), hpass]
    simp only
    rw [hnext]
    exact ih _ s

theorem property_entries_isSome {σ : Type} (handler : ole2_header_t → property_t → σ → Option σ)
    (hh : ∀ hdr1 p s1, (handler hdr1 p s1).isSome) (pb : Mem) :
    ∀ (l : List Nat) (hdr : ole2_header_t) (s : σ),
      (property_entries handler pb l hdr s).isSome := by
  intro l
  induction l with
  | nil => intro hdr s; rfl
  | cons j rest ih =>
    intro hdr s
    unfold property_entries
    split
    · simp only
      split
      · rename_i hnone
        have := hh _ _ _ ▸ congrArg Option.isSome hnone
        simp at this
      · exact ih _ _
    · exact ih _ _

theorem walk_blocks_isSome {σ : Type} (env : Env) (file : List Byte)
    (handler : ole2_header_t → property_t → σ → Option σ)
    (hh : ∀ hdr1 p s1, (handler hdr1 p s1).isSome) :
    ∀ (ps : List Int) (hdr : ole2_header_t) (pb : Mem) (s : σ),
      (walk_blocks env file handler ps hdr pb s).isSome := by
  intro ps
  induction ps with
  | nil => intro hdr pb s; rfl
  | cons p ps ih =>
    intro hdr pb s
    unfold walk_blocks
    have h := property_entries_isSome handler hh (read_block_buff env file hdr pb p)
      [0, 1, 2, 3] hdr s
    unfold property_tree_pass
    cases he : property_entries handler (read_block_buff env file hdr pb p) [0, 1, 2, 3] hdr s with
    | none => rw [he] at h; simp at h
    | some r => exact ih _ _ _

/-! ## C7: cycle safety of the directory walk -/

/-- C7, as stated, fails: in `img_loop` the FAT entry of `prop_start = 0` is 0 again, and
no amount of fuel lets `ole2_read_property_tree` (with `handler_null`) or
`cli_ole2_extract` return: the walk runs forever. -/
theorem property_tree_cycle_never_ends :
    (¬ ∃ fuel, (ole2_read_property_tree env0 img_loop (read_header env0 img_loop)
        handler_null fuel ()).isSome) ∧
    ¬ ∃ fuel, (cli_ole2_extract env0 fuel img_loop).isSome := by
  obtain ⟨_, _, _, hstart, hmagic⟩ := img_loop_block0
  constructor
  · rintro ⟨fuel, h⟩
    unfold ole2_read_property_tree at h
    rw [hstart, img_loop_diverges handler_null fuel env0.junk ()] at h
    simp at h
  · rintro ⟨fuel, h⟩
    unfold cli_ole2_extract ole2_extract_with at h
    simp only [hmagic, ne_eq, not_true_eq_false, if_false] at h
    unfold ole2_read_property_tree at h
    rw [hstart, img_loop_diverges _ fuel env0.junk []] at h
    simp at h

/-- C7 (amended): for every input image whose directory chain from `prop_start` reaches a
negative block number after `k` blocks, and every handler that returns,
`ole2_read_property_tree` terminates after exactly `k` iterations of its loop: it returns
with fuel for `k` iterations and with no less.  (The code keeps no iteration budget; a
chain that loops back on itself is walked forever.) -/
theorem property_tree_terminates_on_finite_chain {σ : Type} (env : Env) (file : List Byte)
    (hdr : ole2_header_t) (handler : ole2_header_t → property_t → σ → Option σ) (n : Nat)
    (ps : List Int) (fuel : Nat) (s : σ)
    (hchain : big_chain env file hdr n hdr.prop_start = some ps)
    (hh : ∀ hdr1 p s1, (handler hdr1 p s1).isSome) :
    (ole2_read_property_tree env file hdr handler fuel s).isSome ↔ ps.length ≤ fuel := by
  unfold ole2_read_property_tree
  rw [property_tree_loop_eq_walk env file handler ps n fuel hdr hdr env.junk _ s rfl hchain]
  constructor
  · intro h
    by_contra hc
    rw [if_neg hc] at h
    simp at h
  · intro h
    rw [if_pos h]
    exact walk_blocks_isSome env file handler hh ps hdr env.junk s

theorem property_tree_terminates_on_finite_chain_witness :
    (ole2_read_property_tree env0 img (read_header env0 img) handler_null 1 ()).isSome
      ↔ [(1 : Int)].length ≤ 1 :=
  property_tree_terminates_on_finite_chain env0 img (read_header env0 img) handler_null 5
    [1] 1 () (by decide!) (fun _ _ _ => rfl)

/-! ## C5: flat enumeration -/

theorem peek_length (m : Mem) (a : Int) (n : Nat) : (peek m a n).length = n := by
  unfold peek; simp

theorem peek_getElem (m : Mem) (a : Int) (n i : Nat) (h : i < (peek m a n).length) :
    (peek m a n)[i] = m (a + (i : Int)) := by
  unfold peek; simp

/-- Bytes that lie inside the data just stored are read back from it. -/
theorem peek_blit (data : List Byte) (m : Mem) (off n : Nat) (h : off + n ≤ data.length) :
    peek (blit data m) (off : Int) n = (data.drop off).take n := by
  apply List.ext_getElem
  · rw [peek_length]; simp; omega
  · intro i h1 h2
    rw [peek_length] at h1
    rw [peek_getElem]
    have e : (off : Int) + (i : Int) = ((off + i : Nat) : Int) := by push_cast; rfl
    rw [e, blit_of_lt _ _ _ (by omega)]
    simp

theorem wrap32_range (x : Int) : -2147483648 ≤ wrap32 x ∧ wrap32 x < 2147483648 := by
  unfold wrap32
  have h1 := Int.emod_nonneg x (show (4294967296 : Int) ≠ 0 by norm_num)
  have h2 := Int.emod_lt_of_pos x (show (0 : Int) < 4294967296 by norm_num)
  split <;> omega

theorem stream_loop_done (body : Mem → Int → Int → List Byte → WritePass) (fuel : Nat)
    (buff : Mem) (cur len : Int) (out : List Byte) (h : ¬ (cur ≥ 0 ∧ len > 0)) :
    stream_loop body fuel buff cur len out = some out := by
  unfold stream_loop
  rw [if_neg h]

theorem stream_loop_zero (body : Mem → Int → Int → List Byte → WritePass)
    (buff : Mem) (cur len : Int) (out : List Byte) (h : cur ≥ 0 ∧ len > 0) :
    stream_loop body 0 buff cur len out = none := by
  unfold stream_loop
  rw [if_pos h]

theorem stream_loop_succ (body : Mem → Int → Int → List Byte → WritePass) (fuel : Nat)
    (buff : Mem) (cur len : Int) (out : List Byte) (h : cur ≥ 0 ∧ len > 0) :
    stream_loop body (fuel + 1) buff cur len out =
      match body buff cur len out with
      | WritePass.stop out1 => some out1
      | WritePass.next buff1 cur1 len1 out1 => stream_loop body fuel buff1 cur1 len1 out1 := by
  rw [stream_loop, if_pos h]

/-- C6: for every header and every property, the stream walk of `handler_writefile` is the
walk of the specification, which selects the path once: the mini-FAT path
(`ole2_get_sbat_data_block` + `ole2_get_next_sbat_block`) if and only if
`size < sbat_cutoff`, the big-FAT path (`ole2_read_block` +
`ole2_get_next_block_number`) otherwise.  In particular a stream of size
`sbat_cutoff - 1` is read through the mini-FAT and one of size `sbat_cutoff` through the
big FAT. -/
theorem handler_writefile_path_choice (env : Env) (file : List Byte) (hdr : ole2_header_t)
    (prop : property_t) (fuel : Nat) :
    handler_writefile_loop env file hdr prop fuel env.junk prop.start_block prop.size []
      = spec_materialize env file hdr prop fuel := by
  unfold handler_writefile_loop spec_materialize
  by_cases hpos : prop.size > 0
  · have hr := wrap32_range (readU32 prop.mem 120)
    have hsz : prop.size = wrap32 (readU32 prop.mem 120) := rfl
    have hu : toU32 prop.size = prop.size.toNat := toU32_eq_self (by omega) (by omega)
    by_cases hc : prop.size < (hdr.sbat_cutoff : Int)
    · have hc1 : toU32 prop.size < hdr.sbat_cutoff := by rw [hu]; omega
      have hb : handler_writefile_pass env file hdr prop = small_block_pass env file hdr := by
        funext buff cur len out
        unfold handler_writefile_pass
        rw [if_pos hc1]
      rw [hb, if_pos hc]
    · have hc1 : ¬ toU32 prop.size < hdr.sbat_cutoff := by rw [hu]; omega
      have hb : handler_writefile_pass env file hdr prop = big_block_pass env file hdr := by
        funext buff cur len out
        unfold handler_writefile_pass
        rw [if_neg hc1]
      rw [hb, if_neg hc]
  · rw [stream_loop_done _ _ _ _ _ _ (by omega)]
    split <;> rw [stream_loop_done _ _ _ _ _ _ (by omega)]

/-! ## C1: big-FAT round trip -/

theorem next_big_of_spec (env : Env) (file : List Byte) (hdr : ole2_header_t) (c : Nat) (t : Int)
    (hlog : hdr.log2_big_block_size = 9) (hsize : file.length < 2147483648)
    (h : spec_next_big_direct file hdr c = some t) :
    ole2_get_next_block_number env file hdr (c : Int) = t ∧
      ole2_get_next_bat_block env file hdr (c : Int) = t := by
  have e : 2 ^ 9 / 4 = 128 := by norm_num
  unfold spec_next_big_direct at h
  simp only [hlog, e] at h
  split at h
  · exact absurd h (by simp)
  · rename_i h1
    split at h
    · exact absurd h (by simp)
    · rename_i h2
      cases hsec : spec_read_big_block file 9 (hdr.bat_array ((c / 128 : Nat) : Int)).toNat with
      | none => rw [hsec] at h; exact absurd h (by simp)
      | some sec =>
        rw [hsec] at h
        simp only [Option.some.injEq] at h
        have hs : spec_sector file (hdr.bat_array ((c / 128 : Nat) : Int)) = some sec := by
          unfold spec_sector
          rw [if_pos (by omega), hsec]
        have hbat := next_bat_block_eq env file hdr c sec hlog hsize (by omega) hs
        refine ⟨?_, by rw [hbat, h]⟩
        unfold ole2_get_next_block_number
        have h128 : (128 : Int) = ((128 : Nat) : Int) := rfl
        rw [h128, tdiv_natCast, if_neg (by omega), hbat, h]

theorem big_block_size_512 (hdr : ole2_header_t) (hlog : hdr.log2_big_block_size = 9) :
    big_block_size hdr = 512 := by
  unfold big_block_size
  rw [hlog, wrap32_eq_self] <;> norm_num

theorem MIN_natCast (L c : Nat) : MIN (L : Int) (c : Int) = ((min L c : Nat) : Int) := by
  unfold MIN
  split <;> omega

theorem peek_blit_zero (data : List Byte) (m : Mem) (n : Nat) (h : n ≤ data.length) :
    peek (blit data m) 0 n = data.take n := by
  have := peek_blit data m 0 n (by omega)
  simpa using this

/-- One pass of the big-block branch on a block inside the file, with a working sink. -/
theorem big_block_pass_eq (env : Env) (file : List Byte) (hdr : ole2_header_t) (buff : Mem)
    (c : Int) (L : Nat) (out blk : List Byte) (hlog : hdr.log2_big_block_size = 9)
    (hsize : file.length < 2147483648) (hL : L < 2147483648)
    (hwrite : ∀ o d, env.write_error o d = none) (hblk : spec_sector file c = some blk) :
    big_block_pass env file hdr buff c (L : Int) out =
      WritePass.next (blit blk buff) (ole2_get_next_block_number env file hdr c)
        ((L - min L 512 : Nat) : Int) (out ++ blk.take (min L 512)) := by
  have hlen := (spec_sector_some hblk).2.2.1
  have h512 : (512 : Int) = ((512 : Nat) : Int) := rfl
  unfold big_block_pass
  rw [read_block_of_sector env file hdr buff c blk hlog hsize hblk]
  simp only [hwrite, big_block_size_512 hdr hlog]
  have hsub : (L : Int) - ((min L 512 : Nat) : Int) = ((L - min L 512 : Nat) : Int) := by
    omega
  rw [h512, MIN_natCast, toU32_eq_self (by omega) (by omega), Int.toNat_natCast,
    peek_blit_zero _ _ _ (by omega), hsub, wrap32_eq_self (by omega) (by omega)]

theorem flatten_cons_take (blk : List Byte) (rest : List (List Byte)) (L c : Nat)
    (h : blk.length = c) :
    ((blk :: rest).flatten).take L = blk.take (min L c) ++ (rest.flatten).take (L - min L c) := by
  have h1 : L - c = L - min L c := by omega
  have h2 : blk.take L = blk.take (min L c) := by
    by_cases hL : L ≤ c
    · rw [Nat.min_eq_left hL]
    · rw [Nat.min_eq_right (by omega), List.take_of_length_le (by omega),
        List.take_of_length_le (by omega)]
  rw [List.flatten_cons, List.take_append_eq_append_take, h, h1, h2]

/-- The big-block walk over a chain of the right length copies the blocks in order. -/
theorem big_loop_spec (env : Env) (file : List Byte) (hdr : ole2_header_t)
    (hlog : hdr.log2_big_block_size = 9) (hsize : file.length < 2147483648)
    (hwrite : ∀ o d, env.write_error o d = none) :
    ∀ (bs : List Int) (fuel : Nat) (buff : Mem) (cur : Int) (L : Nat) (out : List Byte),
      L < 2147483648 → spec_chain (spec_next_big_direct file hdr) cur bs = true →
      (∀ b ∈ bs, 512 * (b.toNat + 2) ≤ file.length) → bs.length = (L + 511) / 512 →
      bs.length ≤ fuel →
      stream_loop (big_block_pass env file hdr) fuel buff cur (L : Int) out =
        some (out ++ ((bs.map (spec_block file)).flatten).take L) := by
  intro bs
  induction bs with
  | nil =>
    intro fuel buff cur L out _ _ _ hlen _
    have hL0 : L = 0 := by simp at hlen; omega
    subst hL0
    rw [stream_loop_done _ _ _ _ _ _ (by simp)]
    simp
  | cons c rest ih =>
    intro fuel buff cur L out hL hch hin hlen hfuel
    unfold spec_chain at hch
    simp only [Bool.and_eq_true, decide_eq_true_eq] at hch
    obtain ⟨hcur, hc0, hnext⟩ := hch
    subst hcur
    cases hn : spec_next_big_direct file hdr cur.toNat with
    | none => rw [hn] at hnext; exact absurd hnext (by simp)
    | some t =>
      rw [hn] at hnext
      simp only at hnext
      have hLpos : 0 < L := by
        simp only [List.length_cons] at hlen
        by_contra h0
        have : L = 0 := by omega
        subst this
        simp at hlen
      have hcin := hin cur (List.mem_cons_self _ _)
      have hblk : spec_sector file cur = some (spec_block file cur) := by
        have hl : (readn file (512 + cur.toNat * 2 ^ 9) (2 ^ 9)).length = 2 ^ 9 :=
          readn_length _ _ _ (by norm_num; omega)
        unfold spec_sector spec_read_big_block
        rw [if_pos hc0, if_pos hl]
        rfl
      have hblen := (spec_sector_some hblk).2.2.1
      obtain ⟨C, rfl⟩ := Int.eq_ofNat_of_zero_le hc0
      have hcode := (next_big_of_spec env file hdr C t hlog hsize
        (by simpa using hn)).1
      cases fuel with
      | zero => simp at hfuel
      | succ fuel =>
        rw [stream_loop_succ _ _ _ _ _ _ ⟨hc0, by omega⟩,
          big_block_pass_eq env file hdr buff _ L out _ hlog hsize hL hwrite hblk]
        simp only
        rw [hcode, ih fuel _ t (L - min L 512) _ (by omega) hnext
          (fun b hb => hin b (List.mem_cons_of_mem _ hb))
          (by simp only [List.length_cons] at hlen; omega)
          (by simp only [List.length_cons] at hfuel; omega)]
        rw [List.map_cons, flatten_cons_take _ _ _ 512 hblen, List.append_assoc]

/-- C1: for every header with `log2_big_block_size = 9` and `sbat_cutoff = 4096`, every
image below 2 GiB and every type-2 property with size `s >= sbat_cutoff` whose chain
`b0 -> b1 -> ... -> b(k-1) -> (negative)` in the big FAT (direct path: FAT sector index
below 109 and not above `bat_count`, FAT sector inside the file) has `k = ceil(s / 512)`
blocks, all lying inside the file, `handler_writefile` (with `open` and `writen`
succeeding) creates one file holding exactly the first `s` bytes of the concatenation of
the 512-byte blocks at the file offsets `512 + 512 * b_i`, in chain order. -/
theorem big_fat_round_trip (env : Env) (file : List Byte) (hdr : ole2_header_t)
    (prop : property_t) (fuel : Nat) (outs : List Output) (bs : List Int)
    (hlog : hdr.log2_big_block_size = 9) (hcut : hdr.sbat_cutoff = 4096)
    (hsize : file.length < 2147483648) (htype : prop.type = 2) (hs : 4096 ≤ prop.size)
    (hopen : env.open_ok (stream_name env prop) = true)
    (hwrite : ∀ o d, env.write_error o d = none)
    (hchain : spec_chain (spec_next_big_direct file hdr) prop.start_block bs = true)
    (hlen : bs.length = (prop.size.toNat + 511) / 512)
    (hin : ∀ b ∈ bs, 512 * (b.toNat + 2) ≤ file.length) (hfuel : bs.length ≤ fuel) :
    handler_writefile env file fuel hdr prop outs =
      some (outs ++ [{ name := stream_name env prop,
                       data := ((bs.map (spec_block file)).flatten).take prop.size.toNat }]) := by
  have hr := wrap32_range (readU32 prop.mem 120)
  have hsz : prop.size = wrap32 (readU32 prop.mem 120) := rfl
  have hu : toU32 prop.size = prop.size.toNat := toU32_eq_self (by omega) (by omega)
  have hb : handler_writefile_pass env file hdr prop = big_block_pass env file hdr := by
    funext buff cur len out
    unfold handler_writefile_pass
    rw [if_neg (by rw [hu, hcut]; omega)]
  have hcast : prop.size = ((prop.size.toNat : Nat) : Int) := by omega
  have hloop := big_loop_spec env file hdr hlog hsize hwrite bs fuel env.junk prop.start_block
    prop.size.toNat [] (by omega) hchain hin hlen hfuel
  rw [← hcast] at hloop
  unfold handler_writefile handler_writefile_loop
  rw [if_neg (by rw [htype]; simp), if_pos hopen, hb, hloop]
  simp

theorem big_fat_round_trip_witness :
    handler_writefile env0 img 10 (read_header env0 img) (prop_at (blit img_dir env0.junk) 2) [] =
      some [{ name := [0x42, 0x69, 0x67], data := List.replicate 5000 0xaa }] :=
  Eq.trans
    (big_fat_round_trip env0 img (read_header env0 img) (prop_at (blit img_dir env0.junk) 2) 10 []
      [4, 5, 6, 7, 8, 9, 10, 11, 12, 13] (by decide!) (by decide!) img_size (by decide!)
      (by decide!) rfl (fun _ _ => rfl) (by decide!) (by decide!) (by decide!) (by decide!))
    (by decide!)

/-! ## C2: mini-FAT round trip -/

theorem bat_advance_spec (env : Env) (file : List Byte) (hdr : ole2_header_t)
    (hlog : hdr.log2_big_block_size = 9) (hsize : file.length < 2147483648) (B : Int) :
    ∀ (j : Nat) (b : Int), spec_chain_nth file hdr j b = some B →
      bat_advance env file hdr j b = B := by
  intro j
  induction j with
  | zero =>
    intro b h
    unfold spec_chain_nth at h
    simp only [Option.some.injEq] at h
    subst h
    rfl
  | succ j ih =>
    intro b h
    unfold spec_chain_nth at h
    split at h
    · exact absurd h (by simp)
    · rename_i hb
      cases hn : spec_next_big_direct file hdr b.toNat with
      | none => rw [hn] at h; exact absurd h (by simp)
      | some t =>
        rw [hn] at h
        simp only at h
        have hcode := (next_big_of_spec env file hdr b.toNat t hlog hsize hn).2
        rw [Int.toNat_of_nonneg (by omega)] at hcode
        unfold bat_advance
        rw [hcode]
        exact ih t h

theorem next_small_of_spec (env : Env) (file : List Byte) (hdr : ole2_header_t) (m : Nat)
    (t : Int) (hlog : hdr.log2_big_block_size = 9) (hsize : file.length < 2147483648)
    (h : spec_next_small file hdr m = some t) :
    ole2_get_next_sbat_block env file hdr (m : Int) = t := by
  unfold spec_next_small at h
  cases hc : spec_chain_nth file hdr (m / 128) hdr.sbat_start with
  | none => rw [hc] at h; exact absurd h (by simp)
  | some s0 =>
    rw [hc] at h
    simp only at h
    cases hs : spec_sector file s0 with
    | none => rw [hs] at h; exact absurd h (by simp)
    | some sec =>
      rw [hs] at h
      simp only [Option.some.injEq] at h
      have hlen := (spec_sector_some hs).2.2.1
      have hlt : m % 128 < 128 := Nat.mod_lt _ (by norm_num)
      have h128 : (128 : Int) = ((128 : Nat) : Int) := rfl
      unfold ole2_get_next_sbat_block
      simp only
      rw [h128, tdiv_natCast, tmod_natCast, Int.toNat_natCast,
        bat_advance_spec env file hdr hlog hsize s0 _ _ hc,
        read_block_of_sector env file hdr _ _ sec hlog hsize hs,
        readS32_blit sec _ _ _ rfl (by omega)]
      exact h

/-- The blocks that make up the mini-stream. -/
theorem spec_mini_stream_blocks (file : List Byte) (hdr : ole2_header_t) :
    ∀ (N : Nat) (mini : List Byte), spec_mini_stream file hdr N = some mini →
      mini.length = 512 * N ∧
      ∀ j, j < N → ∃ B blk, spec_chain_nth file hdr j hdr.sbat_root_start = some B ∧
        spec_sector file B = some blk ∧ (mini.drop (512 * j)).take 512 = blk := by
  intro N
  induction N with
  | zero =>
    intro mini h
    unfold spec_mini_stream at h
    injection h with h
    subst h
    exact ⟨rfl, fun j hj => absurd hj (by omega)⟩
  | succ N ih =>
    intro mini h
    unfold spec_mini_stream at h
    cases h1 : spec_mini_stream file hdr N with
    | none => rw [h1] at h; exact absurd h (by simp)
    | some bytes =>
      rw [h1] at h
      simp only at h
      cases h2 : spec_chain_nth file hdr N hdr.sbat_root_start with
      | none => rw [h2] at h; exact absurd h (by simp)
      | some b =>
        rw [h2] at h
        simp only at h
        cases h3 : spec_sector file b with
        | none => rw [h3] at h; exact absurd h (by simp)
        | some blk =>
          rw [h3] at h
          simp only [Option.some.injEq] at h
          subst h
          obtain ⟨hl, hj⟩ := ih bytes h1
          have hbl := (spec_sector_some h3).2.2.1
          refine ⟨by rw [List.length_append, hl, hbl]; ring, ?_⟩
          intro j hjN
          by_cases hlt : j < N
          · obtain ⟨B, blk1, e1, e2, e3⟩ := hj j hlt
            refine ⟨B, blk1, e1, e2, ?_⟩
            rw [← e3, List.drop_append_of_le_length (by omega),
              List.take_append_of_le_length (by rw [List.length_drop]; omega)]
          · have hjeq : j = N := by omega
            subst hjeq
            refine ⟨b, blk, h2, h3, ?_⟩
            have : 512 * j = bytes.length := by omega
            rw [this, List.drop_left, List.take_of_length_le (by omega)]

theorem slice_of_block (mini blk : List Byte) (j r c : Nat) (hr : r + c ≤ 512)
    (h : (mini.drop (512 * j)).take 512 = blk) :
    (blk.drop r).take c = (mini.drop (512 * j + r)).take c := by
  rw [← h, List.drop_take, List.drop_drop, List.take_take, Nat.min_eq_left (by omega)]

/-- One pass of the small-block branch on a small block inside the mini-stream, with a
working sink. -/
theorem small_block_pass_eq (env : Env) (file : List Byte) (hdr : ole2_header_t) (buff : Mem)
    (m L N : Nat) (out mini : List Byte) (hlog : hdr.log2_big_block_size = 9)
    (hsize : file.length < 2147483648) (hL : L < 2147483648)
    (hwrite : ∀ o d, env.write_error o d = none)
    (hmini : spec_mini_stream file hdr N = some mini) (hm : 64 * (m + 1) ≤ mini.length) :
    ∃ buff1, small_block_pass env file hdr buff (m : Int) (L : Int) out =
      WritePass.next buff1 (ole2_get_next_sbat_block env file hdr (m : Int))
        ((L - min L 64 : Nat) : Int) (out ++ (spec_mini_slice mini (m : Int)).take (min L 64)) := by
  obtain ⟨hml, hblocks⟩ := spec_mini_stream_blocks file hdr N mini hmini
  obtain ⟨B0, blk0, hB0, hs0, _⟩ := hblocks 0 (by omega)
  obtain ⟨B, blk, hB, hs, hslice⟩ := hblocks (m / 8) (by omega)
  have hroot : 0 ≤ hdr.sbat_root_start := by
    unfold spec_chain_nth at hB0
    simp only [Option.some.injEq] at hB0
    rw [hB0]
    exact (spec_sector_some hs0).1
  have hblen := (spec_sector_some hs).2.2.1
  have h8 : (8 : Int) = ((8 : Nat) : Int) := rfl
  have h64 : (64 : Int) = ((64 : Nat) : Int) := rfl
  have hoff : (64 : Int) * ((m % 8 : Nat) : Int) = ((64 * (m % 8) : Nat) : Int) := by
    push_cast; rfl
  have hsub : (L : Int) - ((min L 64 : Nat) : Int) = ((L - min L 64 : Nat) : Int) := by
    omega
  have hmod : m % 8 < 8 := Nat.mod_lt _ (by norm_num)
  have hdata : ole2_get_sbat_data_block env file hdr buff (m : Int) = (true, blit blk buff) := by
    unfold ole2_get_sbat_data_block
    rw [if_neg (by omega)]
    simp only
    rw [h8, tdiv_natCast, Int.toNat_natCast, bat_advance_spec env file hdr hlog hsize B _ _ hB,
      read_block_of_sector env file hdr buff B blk hlog hsize hs]
  have hchunk : peek (blit blk buff) ((64 * (m % 8) : Nat) : Int) (min L 64)
      = (spec_mini_slice mini (m : Int)).take (min L 64) := by
    rw [peek_blit _ _ _ _ (by omega), slice_of_block mini blk (m / 8) _ _ (by omega) hslice]
    unfold spec_mini_slice
    rw [List.take_take, Int.toNat_natCast]
    have e1 : 512 * (m / 8) + 64 * (m % 8) = 64 * m := by omega
    have e2 : min (min L 64) 64 = min L 64 := by omega
    rw [e1, e2]
  refine ⟨blit blk buff, ?_⟩
  unfold small_block_pass
  rw [hdata]
  simp only [hwrite]
  rw [h8, tmod_natCast, hoff, h64, MIN_natCast, toU32_eq_self (by omega) (by omega),
    Int.toNat_natCast, hchunk, hsub, wrap32_eq_self (by omega) (by omega)]

/-- The small-block walk over a chain of the right length copies the slices in order. -/
theorem small_loop_spec (env : Env) (file : List Byte) (hdr : ole2_header_t) (N : Nat)
    (mini : List Byte) (hlog : hdr.log2_big_block_size = 9) (hsize : file.length < 2147483648)
    (hwrite : ∀ o d, env.write_error o d = none)
    (hmini : spec_mini_stream file hdr N = some mini) :
    ∀ (ms : List Int) (fuel : Nat) (buff : Mem) (cur : Int) (L : Nat) (out : List Byte),
      L < 2147483648 → spec_chain (spec_next_small file hdr) cur ms = true →
      (∀ m ∈ ms, 64 * (m.toNat + 1) ≤ mini.length) → ms.length = (L + 63) / 64 →
      ms.length ≤ fuel →
      stream_loop (small_block_pass env file hdr) fuel buff cur (L : Int) out =
        some (out ++ ((ms.map (spec_mini_slice mini)).flatten).take L) := by
  intro ms
  induction ms with
  | nil =>
    intro fuel buff cur L out _ _ _ hlen _
    have hL0 : L = 0 := by simp at hlen; omega
    subst hL0
    rw [stream_loop_done _ _ _ _ _ _ (by simp)]
    simp
  | cons c rest ih =>
    intro fuel buff cur L out hL hch hin hlen hfuel
    unfold spec_chain at hch
    simp only [Bool.and_eq_true, decide_eq_true_eq] at hch
    obtain ⟨hcur, hc0, hnext⟩ := hch
    subst hcur
    cases hn : spec_next_small file hdr cur.toNat with
    | none => rw [hn] at hnext; exact absurd hnext (by simp)
    | some t =>
      rw [hn] at hnext
      simp only at hnext
      have hLpos : 0 < L := by
        simp only [List.length_cons] at hlen
        by_contra h0
        have : L = 0 := by omega
        subst this
        simp at hlen
      have hcin := hin cur (List.mem_cons_self _ _)
      obtain ⟨C, rfl⟩ := Int.eq_ofNat_of_zero_le hc0
      simp only [Int.toNat_natCast] at hcin hn
      have hcode := next_small_of_spec env file hdr C t hlog hsize hn
      have hsl : (spec_mini_slice mini (C : Int)).length = 64 := by
        unfold spec_mini_slice
        rw [List.length_take, List.length_drop, Int.toNat_natCast]
        omega
      cases fuel with
      | zero => simp at hfuel
      | succ fuel =>
        obtain ⟨buff1, hpass⟩ := small_block_pass_eq env file hdr buff C L N out mini hlog
          hsize hL hwrite hmini hcin
        rw [stream_loop_succ _ _ _ _ _ _ ⟨hc0, by omega⟩, hpass]
        simp only
        rw [hcode, ih fuel _ t (L - min L 64) _ (by omega) hnext
          (fun b hb => hin b (List.mem_cons_of_mem _ hb))
          (by simp only [List.length_cons] at hlen; omega)
          (by simp only [List.length_cons] at hfuel; omega)]
        rw [List.map_cons, flatten_cons_take _ _ _ 64 hsl, List.append_assoc]

/-- The mini-FAT round trip where the header names the FAT sectors directly (the part of
C2 that the code satisfies; `spec_chain_nth` has no value from FAT sector index 109 on):
for every header with `log2_big_block_size = 9` and `sbat_cutoff = 4096` (the
small-block size 64 is a constant of the code), every image below 2 GiB in which
`sbat_root_start` has been set, and every type-2 property with `0 < size s < sbat_cutoff`
whose mini-FAT chain `m0 -> m1 -> ... -> (negative)` has `ceil(s / 64)` small blocks, all
inside the mini-stream, `handler_writefile` (with `open` and `writen` succeeding) creates
one file holding exactly the first `s` bytes of the concatenation of the 64-byte slices
found at the mini-stream offsets `64 * m_i`, where the mini-stream is the concatenation of
the big blocks on the big-FAT chain that starts at `sbat_root_start`. -/
theorem mini_fat_round_trip (env : Env) (file : List Byte) (hdr : ole2_header_t)
    (prop : property_t) (fuel : Nat) (outs : List Output) (ms : List Int) (N : Nat)
    (mini : List Byte)
    (hlog : hdr.log2_big_block_size = 9) (hcut : hdr.sbat_cutoff = 4096)
    (hsize : file.length < 2147483648) (htype : prop.type = 2) (hs0 : 0 < prop.size)
    (hs : prop.size < 4096) (hopen : env.open_ok (stream_name env prop) = true)
    (hwrite : ∀ o d, env.write_error o d = none)
    (hmini : spec_mini_stream file hdr N = some mini)
    (hchain : spec_chain (spec_next_small file hdr) prop.start_block ms = true)
    (hlen : ms.length = (prop.size.toNat + 63) / 64)
    (hin : ∀ m ∈ ms, 64 * (m.toNat + 1) ≤ mini.length) (hfuel : ms.length ≤ fuel) :
    handler_writefile env file fuel hdr prop outs =
      some (outs ++ [{ name := stream_name env prop,
                       data := ((ms.map (spec_mini_slice mini)).flatten).take
                         prop.size.toNat }]) := by
  have hu : toU32 prop.size = prop.size.toNat := toU32_eq_self (by omega) (by omega)
  have hb : handler_writefile_pass env file hdr prop = small_block_pass env file hdr := by
    funext buff cur len out
    unfold handler_writefile_pass
    rw [if_pos (by rw [hu, hcut]; omega)]
  have hcast : prop.size = ((prop.size.toNat : Nat) : Int) := by omega
  have hloop := small_loop_spec env file hdr N mini hlog hsize hwrite hmini ms fuel env.junk
    prop.start_block prop.size.toNat [] (by omega) hchain hin hlen hfuel
  rw [← hcast] at hloop
  unfold handler_writefile handler_writefile_loop
  rw [if_neg (by rw [htype]; simp), if_pos hopen, hb, hloop]
  simp

theorem mini_fat_round_trip_witness :
    handler_writefile env0 img 1 { read_header env0 img with sbat_root_start := 3 }
        (prop_at (blit img_dir env0.junk) 1) [] =
      some [{ name := [0x46, 0x6f, 0x6f], data := [0, 1, 2, 3, 4, 5, 6, 7, 8, 9] }] :=
  Eq.trans
    (mini_fat_round_trip env0 img { read_header env0 img with sbat_root_start := 3 }
      (prop_at (blit img_dir env0.junk) 1) 1 [] [0] 1 img_ministream (by decide!) (by decide!)
      img_size (by decide!) (by decide!) (by decide!) rfl (fun _ _ => rfl) (by decide!)
      (by decide!) (by decide!) (by decide!) (by decide!))
    (by decide!)

/-! ## C11: the FAT index range error -/

/-- On the direct path `ole2_get_next_bat_block` answers -10 from the test on `bat_count`,
before any block is read. -/
theorem next_bat_block_range_error (env : Env) (file : List Byte) (hdr : ole2_header_t)
    (current : Int) (h : Int.tdiv current 128 > hdr.bat_count) :
    ole2_get_next_bat_block env file hdr current = -10 := by
  unfold ole2_get_next_bat_block
  simp only
  rw [if_pos h]

/-- The direct path of `ole2_get_next_block_number` (sector index at most 108) reports
the range error for every header, every image and every environment. -/
theorem next_block_number_range_error (env : Env) (file : List Byte) (hdr : ole2_header_t)
    (current : Int) (hdirect : Int.tdiv current 128 ≤ 108)
    (h : Int.tdiv current 128 > hdr.bat_count) :
    ole2_get_next_block_number env file hdr current = -10 := by
  unfold ole2_get_next_block_number
  rw [if_neg (by omega)]
  exact next_bat_block_range_error env file hdr current h

/-- C11 (defect of the code): `img_xbat` has `bat_count = 0` and for `current = 30213` the
FAT sector index is 236, which exceeds `bat_count`.  `ole2_get_next_block_number` takes the
XBAT path, where `bat_count` is not tested: it reads the FAT sector (block 2) and returns
its entry 5, which is 77, instead of -10. -/
theorem next_xbat_block_ignores_bat_count :
    (read_header env0 img_xbat).bat_count = 0 ∧ Int.tdiv 30213 128 = 236 ∧
    ole2_get_next_block_number env0 img_xbat (read_header env0 img_xbat) 30213 = 77 ∧
    spec_entry (spec_block img_xbat 2) 5 = 77 := by
  decide!

/-! ## C12: the size of a big block is not bounded -/

theorem magic_match (env : Env) (file : List Byte) (hmagic : file.take 8 = magic_id) :
    strncmp (read_header env file).magic (fun i => magic_id.getD i 0) 0 8 = 0 := by
  have hlen : 8 ≤ file.length := by
    have := congrArg List.length hmagic
    simp at this
    have hm : magic_id.length = 8 := rfl
    omega
  apply strncmp_eq_zero_of_eq
  intro j _ hj
  rw [read_header_magic env file j (by omega) (by omega)]
  have : (file.take 8).getD j 0 = magic_id.getD j 0 := by rw [hmagic]
  simpa [List.getD_eq_getElem?_getD, List.getElem?_take, show j < 8 by omega] using this

/-- C12, as stated, fails: `img_log17` has the magic and `log2_big_block_size = 17`.
`cli_ole2_extract` does not reject it: it reads directory block 0 (asking for `1 << 17`
bytes), passes its first entry to `handler_writefile`, which creates the file "A", and
returns 0. -/
theorem cli_ole2_extract_accepts_log2_17 :
    img_log17.take 8 = magic_id ∧ (read_header env0 img_log17).log2_big_block_size = 17 ∧
    big_block_size (read_header env0 img_log17) = 131072 ∧
    cli_ole2_extract env0 1 img_log17 = some (0, [Output.mk [0x41] []]) := by
  decide!

/-- C12 (amended): for every input with the magic, whatever `log2_big_block_size` is (in
particular when it is larger than 16), `cli_ole2_extract` rejects nothing: its run is the
walk of `ole2_read_property_tree` with `handler_writefile`, whose block reads ask for
`1 << log2_big_block_size` bytes, and when the walk ends the return value is 0. -/
theorem cli_ole2_extract_any_block_size (env : Env) (fuel : Nat) (file : List Byte)
    (hmagic : file.take 8 = magic_id) :
    cli_ole2_extract env fuel file
      = (ole2_read_property_tree env file (read_header env file)
          (handler_writefile env file fuel) fuel []).map (fun r => ((0 : Int), r.2)) ∧
    ∀ r, cli_ole2_extract env fuel file = some r → r.1 = 0 := by
  have hcmp := magic_match env file hmagic
  constructor
  · unfold cli_ole2_extract ole2_extract_with
    simp only [hcmp, ne_eq, not_true_eq_false, if_false]
    cases ole2_read_property_tree env file (read_header env file)
        (handler_writefile env file fuel) fuel [] with
    | none => rfl
    | some r => rfl
  · intro r hr
    exact ole2_extract_with_zero env file _ fuel [] r hmagic hr

theorem cli_ole2_extract_any_block_size_witness :
    (read_header env0 img_log17).log2_big_block_size = 17 ∧
    (cli_ole2_extract env0 1 img_log17
      = (ole2_read_property_tree env0 img_log17 (read_header env0 img_log17)
          (handler_writefile env0 img_log17 1) 1 []).map (fun r => ((0 : Int), r.2)) ∧
    ∀ r, cli_ole2_extract env0 1 img_log17 = some r → r.1 = 0) :=
  ⟨by decide!, cli_ole2_extract_any_block_size env0 1 img_log17 (by decide!)⟩

/-! ## C13: negative block indices -/

/-- C13, as stated, fails: with the 512-byte blocks of `img_dir_cut` the offset of block
-1 is 0; `ole2_read_block` returns TRUE and delivers the 512 bytes of the header (they
start with the magic) to the buffer.  Block `-8388608` has the offset 512 after the
overflow of `int` and is read as block 0, the FAT.  With the one-byte blocks of `img_log0`
the offset of block -513 is -1, the value `lseek` returns for its failure, and the read
goes on at the current position. -/
theorem ole2_read_block_minus_one_reads_header :
    (block_offset (read_header env0 img_dir_cut) (-1) = 0 ∧
      (ole2_read_block env0 img_dir_cut (read_header env0 img_dir_cut) env0.junk (-1)).1
        = true ∧
      peek (ole2_read_block env0 img_dir_cut (read_header env0 img_dir_cut) env0.junk (-1)).2
        0 8 = magic_id) ∧
    (block_offset (read_header env0 img_dir_cut) (-8388608) = 512 ∧
      (ole2_read_block env0 img_dir_cut (read_header env0 img_dir_cut) env0.junk
        (-8388608)).1 = true ∧
      peek (ole2_read_block env0 img_dir_cut (read_header env0 img_dir_cut) env0.junk
        (-8388608)).2 0 4 = [0xfd, 0xff, 0xff, 0xff]) ∧
    block_offset (read_header env0 img_log0) (-513) = -1 ∧
    (ole2_read_block env0 img_log0 (read_header env0 img_log0) env0.junk (-513)).1 = true ∧
    peek (ole2_read_block env0 img_log0 (read_header env0 img_log0) env0.junk (-513)).2 0 1
      = [0xd0] := by
  decide!

/-- C13 (amended): `ole2_read_block` does not test the block index; for every header and
every negative block index `n` whose offset `(n << log2_big_block_size) + 512`, computed
without overflow of `int`, is below -1 (with 512-byte blocks: every `n` from -2 down to
`-2 ^ 22`), the seek fails, `ole2_read_block` returns FALSE and the buffer is left as it
was. -/
theorem ole2_read_block_negative_offset_fails (env : Env) (file : List Byte)
    (hdr : ole2_header_t) (buff : Mem) (n : Int) (hn : n < 0)
    (hlo : -2147483648 ≤ n * 2 ^ hdr.log2_big_block_size)
    (hoff : n * 2 ^ hdr.log2_big_block_size + 512 < -1) :
    block_offset hdr n = n * 2 ^ hdr.log2_big_block_size + 512 ∧
    ole2_read_block env file hdr buff n = (false, buff) := by
  have _ := hn
  constructor
  · unfold block_offset
    rw [two_pow_cast] at hlo hoff ⊢
    generalize n * ((2 ^ hdr.log2_big_block_size : Nat) : Int) = x at *
    rw [wrap32_eq_self (x := x) (by omega) (by omega), wrap32_eq_self (by omega) (by omega)]
  · unfold ole2_read_block block_offset
    rw [two_pow_cast] at hlo hoff ⊢
    generalize n * ((2 ^ hdr.log2_big_block_size : Nat) : Int) = x at *
    rw [wrap32_eq_self (x := x) (by omega) (by omega), wrap32_eq_self (by omega) (by omega)]
    rw [if_pos ⟨by omega, by omega⟩]

theorem ole2_read_block_negative_offset_fails_witness :
    block_offset (read_header env0 img_dir_cut) (-2)
      = -2 * 2 ^ (read_header env0 img_dir_cut).log2_big_block_size + 512 ∧
    ole2_read_block env0 img_dir_cut (read_header env0 img_dir_cut) env0.junk (-2)
      = (false, env0.junk) :=
  ole2_read_block_negative_offset_fails env0 img_dir_cut (read_header env0 img_dir_cut)
    env0.junk (-2) (by decide) (by decide!) (by decide!)

/-! ## C15: the synthesized name -/

theorem format_10d_length (v : Int) : 10 ≤ (format_10d v).length := by
  unfold format_10d
  simp only [List.length_append, List.length_map, List.length_range]
  omega

/-- C15 (defect of the code): `snprintf(name, 10, "%.10d", ...)` stores at most 9
characters before the terminator, so the synthesized name has 9 characters for every
value of the counter, not 10: for the nameless type-2 entry `prop_unnamed` and the value
1234567890 the name is "123456789". -/
theorem synth_name_nine_characters :
    (∀ v : Int, (synth_name v).length = 9) ∧
    prop_unnamed.type = 2 ∧ prop_unnamed.name 0 = 0 ∧
    stream_name { env0 with counter := 1234567890 } prop_unnamed
      = [49, 50, 51, 52, 53, 54, 55, 56, 57] := by
  refine ⟨fun v => ?_, by decide!⟩
  have := format_10d_length v
  unfold synth_name
  rw [List.length_take]
  omega

/-! ## The stream walk of `handler_writefile` -/

theorem MIN_bounds (a b : Int) (ha : 0 ≤ a) (hb : 0 ≤ b) :
    0 ≤ MIN a b ∧ MIN a b ≤ a ∧ MIN a b ≤ b := by
  unfold MIN; split <;> omega

theorem toU32_MIN (a b : Int) (ha : 0 ≤ a) (ha1 : a < 2147483648) (hb : 0 ≤ b) :
    ((toU32 (MIN a b) : Nat) : Int) = MIN a b := by
  obtain ⟨h1, h2, _⟩ := MIN_bounds a b ha hb
  rw [toU32_eq_self h1 (by omega)]
  omega

theorem readn_length_le_file (file : List Byte) (pos count : Nat) :
    (readn file pos count).length ≤ file.length := by
  unfold readn
  rw [List.length_take, List.length_drop]
  omega

/-- A successful read from an image below 2 GiB shows that `1 << log2_big_block_size` is
not negative. -/
theorem read_block_true_size (env : Env) (file : List Byte) (hdr : ole2_header_t) (buff : Mem)
    (n : Int) (hsize : file.length < 2147483648)
    (h : (ole2_read_block env file hdr buff n).1 = true) : 0 ≤ big_block_size hdr := by
  unfold ole2_read_block at h
  simp only at h
  split at h
  · exact absurd h (by simp)
  · simp only [decide_eq_true_eq] at h
    have hl := readn_length_le_file file
      (if block_offset hdr n = -1 then env.cur else (block_offset hdr n).toNat)
      (toU32 (big_block_size hdr))
    rw [wrap32_eq_self (by omega) (by omega)] at h
    omega

theorem big_block_size_pow (hdr : ole2_header_t) (hlog : hdr.log2_big_block_size ≤ 30) :
    big_block_size hdr = 2 ^ hdr.log2_big_block_size := by
  have hB := two_pow_le_of_le_30 hlog
  unfold big_block_size
  rw [two_pow_cast]
  generalize 2 ^ hdr.log2_big_block_size = B at *
  exact wrap32_eq_self (by omega) (by omega)

theorem prop_size_lt (prop : property_t) : prop.size < 2147483648 :=
  (wrap32_range (readU32 prop.mem 120)).2

/-- What one pass of the small-block branch writes and leaves in `len` and
`current_block`. -/
theorem small_block_pass_facts (env : Env) (file : List Byte) (hdr : ole2_header_t)
    (buff : Mem) (cb len : Int) (out : List Byte) (h0 : 0 < len) (h1 : len < 2147483648) :
    ((small_block_pass env file hdr buff cb len out).out.length : Int) ≤ out.length + len ∧
    ∀ l1, (small_block_pass env file hdr buff cb len out).len = some l1 →
      ((small_block_pass env file hdr buff cb len out).out.length : Int)
          = out.length + MIN len 64 ∧
        l1 = len - MIN len 64 ∧
        (small_block_pass env file hdr buff cb len out).current_block
          = some (ole2_get_next_sbat_block env file hdr cb) := by
  obtain ⟨hm0, hm1, hm2⟩ := MIN_bounds len 64 (by omega) (by norm_num)
  have hu := toU32_MIN len 64 (by omega) h1 (by norm_num)
  unfold small_block_pass
  split
  · simp only [WritePass.out, WritePass.len]
    exact ⟨by omega, fun l1 h => absurd h (by simp)⟩
  · split
    · simp only [WritePass.out, WritePass.len, List.length_append, List.length_take,
        peek_length]
      exact ⟨by omega, fun l1 h => absurd h (by simp)⟩
    · simp only [WritePass.out, WritePass.len, WritePass.current_block, List.length_append,
        peek_length, Option.some.injEq]
      refine ⟨by omega, fun l1 h => ⟨by omega, ?_, trivial⟩⟩
      rw [← h, wrap32_eq_self (by omega) (by omega)]

/-- What one pass of the big-block branch writes and leaves in `len` and `current_block`. -/
theorem big_block_pass_facts (env : Env) (file : List Byte) (hdr : ole2_header_t)
    (buff : Mem) (cb len : Int) (out : List Byte)
    (hsize : file.length < 2147483648 ∨ 0 ≤ big_block_size hdr)
    (h0 : 0 < len) (h1 : len < 2147483648) :
    ((big_block_pass env file hdr buff cb len out).out.length : Int) ≤ out.length + len ∧
    ∀ l1, (big_block_pass env file hdr buff cb len out).len = some l1 →
      0 ≤ big_block_size hdr ∧
      ((big_block_pass env file hdr buff cb len out).out.length : Int)
          = out.length + MIN len (big_block_size hdr) ∧
        l1 = len - MIN len (big_block_size hdr) ∧
        (big_block_pass env file hdr buff cb len out).current_block
          = some (ole2_get_next_block_number env file hdr cb) := by
  unfold big_block_pass
  split
  · simp only [WritePass.out, WritePass.len]
    exact ⟨by omega, fun l1 h => absurd h (by simp)⟩
  · rename_i buff1 hread
    have hb : 0 ≤ big_block_size hdr := by
      rcases hsize with hsize | hsize
      · exact read_block_true_size env file hdr buff cb hsize (by rw [hread])
      · exact hsize
    obtain ⟨hm0, hm1, hm2⟩ := MIN_bounds len (big_block_size hdr) (by omega) hb
    have hu := toU32_MIN len (big_block_size hdr) (by omega) h1 hb
    split
    · simp only [WritePass.out, WritePass.len, List.length_append, List.length_take,
        peek_length]
      exact ⟨by omega, fun l1 h => absurd h (by simp)⟩
    · simp only [WritePass.out, WritePass.len, WritePass.current_block, List.length_append,
        peek_length, Option.some.injEq]
      refine ⟨by omega, fun l1 h => ⟨hb, by omega, ?_, trivial⟩⟩
      rw [← h, wrap32_eq_self (by omega) (by omega)]

theorem writefile_pass_facts (env : Env) (file : List Byte) (hdr : ole2_header_t)
    (prop : property_t) (buff : Mem) (cb len : Int) (out : List Byte)
    (hsize : file.length < 2147483648 ∨ 0 ≤ big_block_size hdr) (h0 : 0 < len)
    (h1 : len < 2147483648) :
    ((handler_writefile_pass env file hdr prop buff cb len out).out.length : Int)
        ≤ out.length + len ∧
    ∀ l1, (handler_writefile_pass env file hdr prop buff cb len out).len = some l1 →
      0 ≤ step_size hdr prop ∧
      ((handler_writefile_pass env file hdr prop buff cb len out).out.length : Int)
          = out.length + MIN len (step_size hdr prop) ∧
        l1 = len - MIN len (step_size hdr prop) ∧
        (handler_writefile_pass env file hdr prop buff cb len out).current_block
          = some (stream_successor env file hdr prop cb) := by
  unfold handler_writefile_pass step_size stream_successor
  split
  · obtain ⟨ha, hb⟩ := small_block_pass_facts env file hdr buff cb len out h0 h1
    exact ⟨ha, fun l1 h => ⟨by norm_num, hb l1 h⟩⟩
  · exact big_block_pass_facts env file hdr buff cb len out hsize h0 h1

/-- The value of `current_block` after a pass is the successor looked up in that pass. -/
theorem writefile_pass_successor (env : Env) (file : List Byte) (hdr : ole2_header_t)
    (prop : property_t) (buff : Mem) (cb len : Int) (out : List Byte) (c1 : Int)
    (h : (handler_writefile_pass env file hdr prop buff cb len out).current_block = some c1) :
    c1 = stream_successor env file hdr prop cb := by
  unfold handler_writefile_pass at h
  unfold stream_successor
  split at h <;> rename_i hc
  · rw [if_pos hc]
    unfold small_block_pass at h
    split at h
    · exact absurd h (by simp [WritePass.current_block])
    · split at h
      · exact absurd h (by simp [WritePass.current_block])
      · simp only [WritePass.current_block, Option.some.injEq] at h
        exact h.symm
  · rw [if_neg hc]
    unfold big_block_pass at h
    split at h
    · exact absurd h (by simp [WritePass.current_block])
    · split at h
      · exact absurd h (by simp [WritePass.current_block])
      · simp only [WritePass.current_block, Option.some.injEq] at h
        exact h.symm

/-- The loop never writes more than `len` further bytes. -/
theorem writefile_loop_bound (env : Env) (file : List Byte) (hdr : ole2_header_t)
    (prop : property_t) (hsize : file.length < 2147483648 ∨ 0 ≤ big_block_size hdr) :
    ∀ (fuel : Nat) (buff : Mem) (cb len : Int) (out data : List Byte),
      0 ≤ len → len < 2147483648 →
      handler_writefile_loop env file hdr prop fuel buff cb len out = some data →
      (data.length : Int) ≤ out.length + len := by
  intro fuel
  induction fuel with
  | zero =>
    intro buff cb len out data h0 h1 h
    unfold handler_writefile_loop at h
    by_cases hg : cb ≥ 0 ∧ len > 0
    · rw [stream_loop_zero _ _ _ _ _ hg] at h
      exact absurd h (by simp)
    · rw [stream_loop_done _ _ _ _ _ _ hg] at h
      simp only [Option.some.injEq] at h
      rw [← h]; omega
  | succ fuel ih =>
    intro buff cb len out data h0 h1 h
    unfold handler_writefile_loop at h
    by_cases hg : cb ≥ 0 ∧ len > 0
    · rw [stream_loop_succ _ _ _ _ _ _ hg] at h
      obtain ⟨ha, hb⟩ := writefile_pass_facts env file hdr prop buff cb len out hsize hg.2 h1
      cases hp : handler_writefile_pass env file hdr prop buff cb len out with
      | stop o1 =>
        rw [hp] at h ha
        simp only [Option.some.injEq] at h
        simp only [WritePass.out] at ha
        rw [← h]; exact ha
      | next b1 c1 l1 o1 =>
        rw [hp] at h hb
        simp only at h
        obtain ⟨hs, hlen, hl1, _⟩ := hb l1 rfl
        simp only [WritePass.out] at hlen
        obtain ⟨hm0, hm1, _⟩ := MIN_bounds len (step_size hdr prop) h0 hs
        have := ih b1 c1 l1 o1 data (by omega) (by omega) h
        omega
    · rw [stream_loop_done _ _ _ _ _ _ hg] at h
      simp only [Option.some.injEq] at h
      rw [← h]; omega

/-- With a positive block size the loop ends within `fuel` passes as soon as
`len <= fuel * block_size`, whatever the chain is. -/
theorem writefile_loop_terminates (env : Env) (file : List Byte) (hdr : ole2_header_t)
    (prop : property_t) (hsize : file.length < 2147483648 ∨ 0 ≤ big_block_size hdr)
    (hpos : 0 < step_size hdr prop) :
    ∀ (fuel : Nat) (buff : Mem) (cb len : Int) (out : List Byte),
      len < 2147483648 → len ≤ (fuel : Int) * step_size hdr prop →
      ∃ data, handler_writefile_loop env file hdr prop fuel buff cb len out = some data := by
  intro fuel
  induction fuel with
  | zero =>
    intro buff cb len out h1 hf
    unfold handler_writefile_loop
    rw [stream_loop_done _ _ _ _ _ _ (by simp at hf; omega)]
    exact ⟨out, rfl⟩
  | succ fuel ih =>
    intro buff cb len out h1 hf
    unfold handler_writefile_loop
    by_cases hg : cb ≥ 0 ∧ len > 0
    · rw [stream_loop_succ _ _ _ _ _ _ hg]
      obtain ⟨_, hb⟩ := writefile_pass_facts env file hdr prop buff cb len out hsize hg.2 h1
      cases hp : handler_writefile_pass env file hdr prop buff cb len out with
      | stop o1 => exact ⟨o1, rfl⟩
      | next b1 c1 l1 o1 =>
        rw [hp] at hb
        obtain ⟨_, _, hl1, _⟩ := hb l1 rfl
        have hmul : ((fuel + 1 : Nat) : Int) * step_size hdr prop
            = (fuel : Int) * step_size hdr prop + step_size hdr prop := by
          push_cast; ring
        have hnn : 0 ≤ (fuel : Int) * step_size hdr prop := by positivity
        rw [hmul] at hf
        have hl : l1 ≤ (fuel : Int) * step_size hdr prop := by
          rw [hl1]
          unfold MIN
          split <;> omega
        have hl2 : l1 < 2147483648 := by
          have := MIN_bounds len (step_size hdr prop) (by omega) (by omega)
          omega
        exact ih b1 c1 l1 o1 hl2 hl
    · rw [stream_loop_done _ _ _ _ _ _ hg]
      exact ⟨out, rfl⟩

/-! ## C14: chain termination -/

/-- C14: for every stream walk of `handler_writefile`, in every state of its loop
(`current_block >= 0`, `len > 0`, whatever has been written so far): if the successor that
the pass looks up (`ole2_get_next_sbat_block` on the mini-FAT path,
`ole2_get_next_block_number` on the big-FAT path) is negative, the loop ends with that
pass, whatever `len` remains: for every amount of fuel the file holds exactly what had been
written when the pass ended, so no further block is read and no further byte written. -/
theorem stream_walk_stops_at_negative_successor (env : Env) (file : List Byte)
    (hdr : ole2_header_t) (prop : property_t) (fuel : Nat) (buff : Mem) (cb len : Int)
    (out : List Byte) (hcb : 0 ≤ cb) (hlen : 0 < len)
    (hneg : stream_successor env file hdr prop cb < 0) :
    handler_writefile_loop env file hdr prop (fuel + 1) buff cb len out
      = some (handler_writefile_pass env file hdr prop buff cb len out).out := by
  unfold handler_writefile_loop
  rw [stream_loop_succ _ _ _ _ _ _ ⟨hcb, hlen⟩]
  cases hp : handler_writefile_pass env file hdr prop buff cb len out with
  | stop o1 => rfl
  | next b1 c1 l1 o1 =>
    have hc := writefile_pass_successor env file hdr prop buff cb len out c1 (by rw [hp]; rfl)
    simp only [WritePass.out]
    rw [stream_loop_done _ _ _ _ _ _ (by omega)]

theorem stream_walk_stops_at_negative_successor_witness :
    (stream_successor env0 img { read_header env0 img with sbat_root_start := 3 } prop_200 0
        = -2 ∧
      (handler_writefile_pass env0 img { read_header env0 img with sbat_root_start := 3 }
        prop_200 env0.junk 0 200 []).len = some 136 ∧
      (handler_writefile_pass env0 img { read_header env0 img with sbat_root_start := 3 }
        prop_200 env0.junk 0 200 []).out = img_ministream.take 64) ∧
    handler_writefile_loop env0 img { read_header env0 img with sbat_root_start := 3 } prop_200
        (0 + 1) env0.junk 0 200 []
      = some (handler_writefile_pass env0 img { read_header env0 img with sbat_root_start := 3 }
          prop_200 env0.junk 0 200 []).out :=
  ⟨by decide!, stream_walk_stops_at_negative_successor env0 img
    { read_header env0 img with sbat_root_start := 3 } prop_200 0 env0.junk 0 200 []
    (by decide) (by decide) (by decide!)⟩

/-! ## C16: the length of the output -/

/-- C16: for every header, every type-2 property and every image below 2 GiB: a pass of
the loop of `handler_writefile` that reaches the end of the loop body has written exactly
`MIN(len, block_size)` bytes (`block_size` 64 on the mini-FAT path,
`1 << log2_big_block_size` on the big-FAT path) and has taken as many from `len`; the file
the walk leaves never holds more than `max(size, 0)` bytes; a property whose `size` is
0 or negative gives an empty file; and with `log2_big_block_size <= 30` the walk does end
(within `size` passes). -/
theorem stream_output_length_bound (env : Env) (file : List Byte) (hdr : ole2_header_t)
    (prop : property_t) (hsize : file.length < 2147483648) :
    (∀ (buff : Mem) (cb len : Int) (out : List Byte) (l1 : Int),
      0 < len → len < 2147483648 →
      (handler_writefile_pass env file hdr prop buff cb len out).len = some l1 →
      ((handler_writefile_pass env file hdr prop buff cb len out).out.length : Int)
          = out.length + MIN len (step_size hdr prop) ∧
        l1 = len - MIN len (step_size hdr prop)) ∧
    (∀ (fuel : Nat) (data : List Byte),
      handler_writefile_loop env file hdr prop fuel env.junk prop.start_block prop.size []
          = some data →
      (data.length : Int) ≤ max prop.size 0) ∧
    (prop.size ≤ 0 → ∀ fuel : Nat,
      handler_writefile_loop env file hdr prop fuel env.junk prop.start_block prop.size []
        = some []) ∧
    (hdr.log2_big_block_size ≤ 30 →
      ∃ data, handler_writefile_loop env file hdr prop prop.size.toNat env.junk
        prop.start_block prop.size [] = some data) := by
  refine ⟨?_, ?_, ?_, ?_⟩
  · intro buff cb len out l1 h0 h1 h
    obtain ⟨_, hb⟩ := writefile_pass_facts env file hdr prop buff cb len out (Or.inl hsize) h0 h1
    obtain ⟨_, h2, h3, _⟩ := hb l1 h
    exact ⟨h2, h3⟩
  · intro fuel data h
    by_cases hp : 0 ≤ prop.size
    · have := writefile_loop_bound env file hdr prop (Or.inl hsize) fuel env.junk
        prop.start_block prop.size [] data hp (prop_size_lt prop) h
      simp only [List.length_nil, Nat.cast_zero, zero_add] at this
      omega
    · unfold handler_writefile_loop at h
      rw [stream_loop_done _ _ _ _ _ _ (by omega)] at h
      simp only [Option.some.injEq] at h
      rw [← h]
      simp only [List.length_nil, Nat.cast_zero]
      omega
  · intro hle fuel
    unfold handler_writefile_loop
    rw [stream_loop_done _ _ _ _ _ _ (by omega)]
  · intro hlog
    have hpos : 1 ≤ step_size hdr prop := by
      unfold step_size
      split
      · norm_num
      · rw [big_block_size_pow hdr hlog]
        have h2 : 1 ≤ 2 ^ hdr.log2_big_block_size := Nat.one_le_two_pow
        exact_mod_cast h2
    have hnn : (0 : Int) ≤ (prop.size.toNat : Int) := by positivity
    apply writefile_loop_terminates env file hdr prop (Or.inl hsize) (by omega)
      prop.size.toNat env.junk prop.start_block prop.size [] (prop_size_lt prop)
    have h1 : prop.size ≤ (prop.size.toNat : Int) := Int.self_le_toNat _
    have h2 : (prop.size.toNat : Int) * 1 ≤ (prop.size.toNat : Int) * step_size hdr prop :=
      mul_le_mul_of_nonneg_left hpos hnn
    omega

theorem stream_output_length_bound_witness :
    ((handler_writefile_pass env0 img { read_header env0 img with sbat_root_start := 3 }
        prop_200 env0.junk 0 200 []).len = some 136 ∧
      handler_writefile_loop env0 img { read_header env0 img with sbat_root_start := 3 }
        prop_200 1 env0.junk prop_200.start_block prop_200.size []
          = some (img_ministream.take 64)) ∧
    ((∀ (buff : Mem) (cb len : Int) (out : List Byte) (l1 : Int),
      0 < len → len < 2147483648 →
      (handler_writefile_pass env0 img { read_header env0 img with sbat_root_start := 3 }
        prop_200 buff cb len out).len = some l1 →
      ((handler_writefile_pass env0 img { read_header env0 img with sbat_root_start := 3 }
        prop_200 buff cb len out).out.length : Int)
          = out.length +
            MIN len (step_size { read_header env0 img with sbat_root_start := 3 } prop_200) ∧
        l1 = len -
          MIN len (step_size { read_header env0 img with sbat_root_start := 3 } prop_200)) ∧
    (∀ (fuel : Nat) (data : List Byte),
      handler_writefile_loop env0 img { read_header env0 img with sbat_root_start := 3 }
        prop_200 fuel env0.junk prop_200.start_block prop_200.size [] = some data →
      (data.length : Int) ≤ max prop_200.size 0) ∧
    (prop_200.size ≤ 0 → ∀ fuel : Nat,
      handler_writefile_loop env0 img { read_header env0 img with sbat_root_start := 3 }
        prop_200 fuel env0.junk prop_200.start_block prop_200.size [] = some []) ∧
    ({ read_header env0 img with sbat_root_start := 3 }.log2_big_block_size ≤ 30 →
      ∃ data, handler_writefile_loop env0 img
        { read_header env0 img with sbat_root_start := 3 } prop_200 prop_200.size.toNat
        env0.junk prop_200.start_block prop_200.size [] = some data)) :=
  ⟨by decide!, stream_output_length_bound env0 img
    { read_header env0 img with sbat_root_start := 3 } prop_200 img_size⟩

/-! ## C17: cycle safety of the stream walk -/

/-- C17: for every header with `log2_big_block_size <= 16`, every property and every
image, whatever its FAT and mini-FAT chains are (looping ones included), the loop of
`handler_writefile` ends within `ceil(size / block_size)` passes (`block_size` 64 on the
mini-FAT path, `2 ^ log2_big_block_size` on the big-FAT path): with fuel for that many
passes the loop returns, and so does `handler_writefile`. -/
theorem stream_walk_cycle_safe (env : Env) (file : List Byte) (hdr : ole2_header_t)
    (prop : property_t) (fuel : Nat) (hlog : hdr.log2_big_block_size ≤ 16)
    (hfuel : spec_max_iterations prop.size
      (if toU32 prop.size < hdr.sbat_cutoff then 64 else 2 ^ hdr.log2_big_block_size) ≤ fuel) :
    (∃ data, handler_writefile_loop env file hdr prop fuel env.junk prop.start_block
        prop.size [] = some data) ∧
    ∀ outs, (handler_writefile env file fuel hdr prop outs).isSome = true := by
  have hbs : step_size hdr prop
      = if toU32 prop.size < hdr.sbat_cutoff then 64 else 2 ^ hdr.log2_big_block_size := by
    unfold step_size
    rw [big_block_size_pow hdr (by omega)]
  have hpos : 0 < step_size hdr prop := by
    rw [hbs]
    split
    · norm_num
    · positivity
  have hbig : 0 ≤ big_block_size hdr := by
    rw [big_block_size_pow hdr (by omega)]; positivity
  rw [← hbs] at hfuel
  have hloop : ∃ data, handler_writefile_loop env file hdr prop fuel env.junk prop.start_block
      prop.size [] = some data := by
    apply writefile_loop_terminates env file hdr prop (Or.inr hbig) hpos fuel env.junk
      prop.start_block prop.size [] (prop_size_lt prop)
    unfold spec_max_iterations at hfuel
    have h1 := Int.lt_ediv_add_one_mul_self (max prop.size 0 + step_size hdr prop - 1) hpos
    have h2 : ((max prop.size 0 + step_size hdr prop - 1) / step_size hdr prop + 1)
        * step_size hdr prop ≤ ((fuel : Int) + 1) * step_size hdr prop :=
      mul_le_mul_of_nonneg_right (by omega) (by omega)
    have h3 : ((fuel : Int) + 1) * step_size hdr prop
        = (fuel : Int) * step_size hdr prop + step_size hdr prop := by ring
    have h4 : prop.size ≤ max prop.size 0 := le_max_left _ _
    omega
  refine ⟨hloop, fun outs => ?_⟩
  obtain ⟨data, hdata⟩ := hloop
  unfold handler_writefile
  split
  · rfl
  · split
    · rw [hdata]; rfl
    · rfl

theorem stream_walk_cycle_safe_witness :
    (ole2_get_next_block_number env0 img_loop (read_header env0 img_loop) 0 = 0 ∧
      prop_1500.type = 2 ∧ prop_1500.start_block = 0 ∧ prop_1500.size = 1500 ∧
      handler_writefile_loop env0 img_loop (read_header env0 img_loop) prop_1500 2
        env0.junk prop_1500.start_block prop_1500.size [] = none) ∧
    ((∃ data, handler_writefile_loop env0 img_loop (read_header env0 img_loop) prop_1500 3
        env0.junk prop_1500.start_block prop_1500.size [] = some data) ∧
    ∀ outs, (handler_writefile env0 img_loop 3 (read_header env0 img_loop) prop_1500
      outs).isSome = true) :=
  ⟨by decide!, stream_walk_cycle_safe env0 img_loop (read_header env0 img_loop) prop_1500 3
    (by decide!) (by decide!)⟩

/-! ## C18: the indices of `ole2_get_next_bat_block` -/

/-- Through `ole2_get_next_block_number`, which the two loops call with `current_block >= 0`
only, `ole2_get_next_bat_block` stays inside its arrays. -/
theorem next_block_number_index_safe (hdr : ole2_header_t) (current : Int)
    (h0 : 0 ≤ current) (h1 : Int.tdiv current 128 ≤ 108) :
    bat_index_safe hdr current = true := by
  obtain ⟨c, rfl⟩ := Int.eq_ofNat_of_zero_le h0
  have h128 : (128 : Int) = ((128 : Nat) : Int) := rfl
  unfold bat_index_safe
  rw [h128, tdiv_natCast] at h1 ⊢
  simp only [Bool.or_eq_true, Bool.and_eq_true, decide_eq_true_eq]
  right
  omega

/-- C18 (defect of the code): in `img_far_mini` the stream "Foo" starts at small block 16,
so `ole2_get_sbat_data_block` calls `ole2_get_next_bat_block` twice from
`sbat_root_start = 3`: for block 3, whose FAT entry is -2, and then for block -2.  That
call passes the test on `bat_count` and indexes `bat` at -2, outside the array: what
`cli_ole2_extract` writes to "Foo" depends on the indeterminate memory in front of `bat`
(block 0 is copied when that memory is zero, the header when it is `0xff`). -/
theorem sbat_walk_index_out_of_bounds :
    bat_advance_calls env0 img_far_mini
      { read_header env0 img_far_mini with sbat_root_start := 3 } 2 3 = [3, -2] ∧
    bat_index_safe (read_header env0 img_far_mini) (-2) = false ∧
    cli_ole2_extract env0 1 img_far_mini
      = some (0, [Output.mk [0x46, 0x6f, 0x6f]
          [253, 255, 255, 255, 254, 255, 255, 255, 254, 255]]) ∧
    cli_ole2_extract env_ff 1 img_far_mini
      = some (0, [Output.mk [0x46, 0x6f, 0x6f]
          [208, 207, 17, 224, 161, 177, 26, 225, 0, 0]]) := by
  decide!

/-! ## C19: the bounds of `get_property_name` -/

theorem name_step_length_le (b : Byte) : (name_step b).length ≤ 3 := by
  unfold name_step
  split
  · simp
  · split <;> simp

theorem flatten_range_length_le (f : Nat → List Byte) (c : Nat) (h : ∀ k, (f k).length ≤ c)
    (n : Nat) : (((List.range n).map f).flatten).length ≤ c * n := by
  induction n with
  | zero => simp
  | succ n ih =>
    rw [List.range_succ, List.map_append, List.flatten_append, List.length_append]
    have := h n
    simp only [List.map_cons, List.map_nil, List.flatten_cons, List.flatten_nil,
      List.append_nil]
    rw [Nat.mul_succ]
    omega

/-- With the terminator, the loop stores at most `2 * size` bytes. -/
theorem newname_chars_length (name : Mem) (size : Int) (h : 0 < size) :
    ((newname_chars name size).length : Int) + 1 ≤ 2 * size := by
  have h1 := flatten_range_length_le (fun (k : Nat) => name_step (name (2 * (k : Int)))) 3
    (fun k => name_step_length_le _) ((size - 1) / 2).toNat
  unfold newname_chars
  omega

theorem get_property_name_eq (name : Mem) (size : Int) :
    get_property_name name size =
      if name 0 = 0 ∨ size = 0 then none
      else if size < 0 then none
      else if (newname_chars name size).length = 0 then none
      else some (newname_chars name size) := rfl

theorem get_property_name_some (name : Mem) (size : Int) (n : List Byte)
    (h : get_property_name name size = some n) : n = newname_chars name size ∧ 0 < size := by
  rw [get_property_name_eq] at h
  split at h
  · exact absurd h (by simp)
  · rename_i h0
    split at h
    · exact absurd h (by simp)
    · split at h
      · exact absurd h (by simp)
      · simp only [Option.some.injEq] at h
        exact ⟨h.symm, by omega⟩

/-- The result of `get_property_name` depends on no other byte than those at the indices
of `name_reads`. -/
theorem get_property_name_reads_only (name1 name2 : Mem) (size : Int)
    (h : ∀ i ∈ name_reads name1 size, name1 i = name2 i) :
    get_property_name name1 size = get_property_name name2 size := by
  have h0 : name1 0 = name2 0 := by
    apply h
    unfold name_reads
    split
    · simp
    · split <;> simp
  rw [get_property_name_eq, get_property_name_eq, ← h0]
  by_cases hc : name1 0 = 0 ∨ size = 0
  · rw [if_pos hc, if_pos hc]
  · by_cases hn : size < 0
    · rw [if_neg hc, if_neg hc, if_pos hn, if_pos hn]
    · have hl : newname_chars name1 size = newname_chars name2 size := by
        unfold newname_chars
        congr 1
        apply List.map_congr_left
        intro k hk
        rw [h (2 * (k : Int))]
        unfold name_reads
        rw [if_neg hc, if_neg hn]
        exact List.mem_cons_of_mem _ (List.mem_map_of_mem _ hk)
      rw [hl]

theorem name_reads_inside (name : Mem) (size : Int) (hsize : size ≤ 66) :
    ∀ i ∈ name_reads name size, 0 ≤ i ∧ i < 64 := by
  intro i hi
  unfold name_reads at hi
  split at hi
  · simp only [List.mem_singleton] at hi; omega
  · split at hi
    · simp only [List.mem_singleton] at hi; omega
    · simp only [List.mem_cons, List.mem_map, List.mem_range] at hi
      rcases hi with hi | ⟨k, hk, hi⟩
      · omega
      · omega

/-- C19, as stated, fails: for an entry with `name_size = 67` the loop of
`get_property_name` reads `name[64]`, the first byte after the name field.  The two
entries `entry_long_name 72 0x42` and `entry_long_name 72 0x43` have the same 64 bytes of
name and the same `name_size = 72`; they differ in the first byte of `prev` (index 68 from
the start of the name), and `get_property_name` returns different names for them. -/
theorem get_property_name_reads_past_name :
    ((entry_long_name 67 0).name_size = 67 ∧
      64 ∈ name_reads (entry_long_name 67 0).name (entry_long_name 67 0).name_size) ∧
    peek (entry_long_name 72 0x42).name 0 64 = peek (entry_long_name 72 0x43).name 0 64 ∧
    (entry_long_name 72 0x42).name_size = 72 ∧ (entry_long_name 72 0x43).name_size = 72 ∧
    get_property_name (entry_long_name 72 0x42).name (entry_long_name 72 0x42).name_size ≠
      get_property_name (entry_long_name 72 0x43).name (entry_long_name 72 0x43).name_size := by
  decide!

/-- C19 (amended): for every property entry whose `name_size` is at most 66,
`get_property_name` reads only bytes of the 64-byte name field: every index it reads lies
in 0..63, and two entries with the same `name_size` and the same bytes at the indices 0..63
of the name get the same result.  For every `name_size`, the characters it stores and the
terminator are at most `2 * name_size` bytes, the size of the buffer it allocates; the
name it returns is made of those characters. -/
theorem get_property_name_bounds (prop1 prop2 : property_t)
    (hsz : prop2.name_size = prop1.name_size)
    (hname : ∀ i : Int, 0 ≤ i → i < 64 → prop1.name i = prop2.name i) :
    (prop1.name_size ≤ 66 →
      (∀ i ∈ name_reads prop1.name prop1.name_size, 0 ≤ i ∧ i < 64) ∧
      get_property_name prop1.name prop1.name_size
        = get_property_name prop2.name prop2.name_size) ∧
    (0 < prop1.name_size →
      ((newname_chars prop1.name prop1.name_size).length : Int) + 1 ≤ 2 * prop1.name_size) ∧
    ∀ n, get_property_name prop1.name prop1.name_size = some n →
      n = newname_chars prop1.name prop1.name_size ∧
        (n.length : Int) + 1 ≤ 2 * prop1.name_size := by
  refine ⟨?_, newname_chars_length _ _, ?_⟩
  · intro h66
    have hin := name_reads_inside prop1.name prop1.name_size h66
    refine ⟨hin, ?_⟩
    rw [hsz]
    exact get_property_name_reads_only _ _ _ (fun i hi => hname i (hin i hi).1 (hin i hi).2)
  · intro n hn
    obtain ⟨h1, h2⟩ := get_property_name_some _ _ _ hn
    rw [h1]
    exact ⟨rfl, newname_chars_length _ _ h2⟩

theorem get_property_name_bounds_witness :
    (prop_200.name_size = 4 ∧
      get_property_name prop_200.name prop_200.name_size = some [0x46]) ∧
    ((prop_200.name_size ≤ 66 →
      (∀ i ∈ name_reads prop_200.name prop_200.name_size, 0 ≤ i ∧ i < 64) ∧
      get_property_name prop_200.name prop_200.name_size
        = get_property_name prop_1500.name prop_1500.name_size) ∧
    (0 < prop_200.name_size →
      ((newname_chars prop_200.name prop_200.name_size).length : Int) + 1
        ≤ 2 * prop_200.name_size) ∧
    ∀ n, get_property_name prop_200.name prop_200.name_size = some n →
      n = newname_chars prop_200.name prop_200.name_size ∧
        (n.length : Int) + 1 ≤ 2 * prop_200.name_size) :=
  ⟨by decide!, get_property_name_bounds prop_200 prop_1500 (by decide!) (by
    intro i h0 h64
    obtain ⟨k, rfl⟩ := Int.eq_ofNat_of_zero_le h0
    have hall : ∀ j : Fin 64, prop_200.name ((j.val : Nat) : Int)
        = prop_1500.name ((j.val : Nat) : Int) := by decide!
    exact hall ⟨k, by omega⟩)⟩

/-! ## C20: entries of a block that could not be read -/

/-- C20 (defect of the code): the directory chain of `img_dir_cut` is 1, 3 and block 3
lies past the end of the file.  `ole2_read_property_tree` does not look at the result of
`ole2_read_block`: in its second iteration the read fails, `prop_block` still holds
block 1, and the entries "R" (root) and "A" are passed to the handler a second time;
`cli_ole2_extract` creates the file "A" twice. -/
theorem property_tree_redelivers_stale_entries :
    big_chain env0 img_dir_cut (read_header env0 img_dir_cut) 2
      (read_header env0 img_dir_cut).prop_start = some [1, 3] ∧
    (ole2_read_block env0 img_dir_cut (read_header env0 img_dir_cut) env0.junk 3).1 = false ∧
    (ole2_read_property_tree env0 img_dir_cut (read_header env0 img_dir_cut) record_handler 2
        []).map (fun r => r.2.map (fun e => e.take 2))
      = some [[0x52, 0], [0x41, 0], [0x52, 0], [0x41, 0]] ∧
    cli_ole2_extract env0 2 img_dir_cut
      = some (0, [Output.mk [0x41] [], Output.mk [0x41] []]) := by
  decide!

/-! ## C3: inputs shorter than the magic -/

/-- C3 (defect of the code): `cli_ole2_extract` does not look at the result of `readn`.
On the empty file, and on the two-byte file `D0 CF`, `strncmp` compares what the automatic
variable `hdr` happens to hold: when that is `stale_header` (the magic, `prop_start = -1`)
the call returns 0 instead of `CL_EOLE2`; when it is zero the call returns `CL_EOLE2`. -/
theorem cli_ole2_extract_short_input_stale_header :
    cli_ole2_extract env_stale 0 [] = some (0, []) ∧
    cli_ole2_extract env_stale 0 [0xd0, 0xcf] = some (0, []) ∧
    env_stale.CL_EOLE2 ≠ 0 ∧
    cli_ole2_extract env0 0 [] = some (env0.CL_EOLE2, []) := by
  decide!

/-! ## C2: a mini-stream behind the FAT sectors of the header -/

theorem img_big_head_length : img_big_head.length = 3072 := by decide!

theorem img_big_tail_length : img_big_tail.length = 1024 := by decide!

theorem img_big_length : img_big.length = 7144960 := by
  unfold img_big
  rw [List.length_append, List.length_append, List.length_replicate, img_big_head_length,
    img_big_tail_length]

theorem readn_append_right (a b : List Byte) (n pos count : Nat) (h : pos = a.length + n) :
    readn (a ++ b) pos count = readn b n count := by
  subst h
  unfold readn
  rw [List.drop_append]

/-- A read behind the filler of `img_big` is a read in its last two blocks. -/
theorem readn_img_big_tail (pos n count : Nat) (h : pos = 7143936 + n) :
    readn img_big pos count = readn img_big_tail n count := by
  have hrep : (List.replicate 7140864 (255 : Byte)).length = 7140864 := List.length_replicate _ _
  unfold img_big
  rw [readn_append_right img_big_head _ (7140864 + n) pos count
      (by rw [img_big_head_length, h]; omega),
    readn_append_right (List.replicate 7140864 (255 : Byte)) img_big_tail n (7140864 + n) count
      (by rw [hrep])]

theorem spec_sector_img_big_13952 : spec_sector img_big 13952 = some (List.replicate 512 0) := by
  have h1 : readn img_big (512 + (13952 : Int).toNat * 2 ^ 9) (2 ^ 9) = List.replicate 512 0 := by
    rw [readn_img_big_tail _ 0 _ (by decide)]
    decide!
  unfold spec_sector spec_read_big_block
  rw [if_pos (by norm_num), h1, if_pos (by norm_num)]

theorem spec_sector_img_big_13953 : spec_sector img_big 13953 = some img_ministream := by
  have h1 : readn img_big (512 + (13953 : Int).toNat * 2 ^ 9) (2 ^ 9) = img_ministream := by
    rw [readn_img_big_tail _ 512 _ (by decide)]
    decide!
  unfold spec_sector spec_read_big_block
  rw [if_pos (by norm_num), h1, if_pos (by decide!)]

theorem img_big_size : img_big.length < 2147483648 := by
  rw [img_big_length]; norm_num

theorem hdr_big_fields :
    hdr_big.log2_big_block_size = 9 ∧ hdr_big.bat_count = 110 ∧ hdr_big.sbat_cutoff = 4096 ∧
      hdr_big.sbat_root_start = 13952 ∧ hdr_big.sbat_start = 1 ∧ hdr_big.xbat_start = 4 := by
  decide!

/-- The lookup for block 13952 takes `bat_array[109]`, which is `sbat_root_start`, for a
FAT sector: it reads block 13952 itself and returns its first entry. -/
theorem next_bat_block_img_big :
    ole2_get_next_bat_block env0 img_big hdr_big 13952 = 0 := by
  obtain ⟨hlog, hcnt, _, hroot, _, _⟩ := hdr_big_fields
  have hdiv : Int.tdiv 13952 128 = 109 := by decide
  have harr : hdr_big.bat_array 109 = 13952 := by
    unfold ole2_header_t.bat_array
    rw [if_pos rfl, hroot]
  unfold ole2_get_next_bat_block
  simp only [hdiv]
  rw [if_neg (by rw [hcnt]; norm_num), harr,
    read_block_of_sector env0 img_big hdr_big env0.junk 13952 _ hlog img_big_size
      spec_sector_img_big_13952]
  decide!

theorem sbat_data_block_img_big :
    ole2_get_sbat_data_block env0 img_big hdr_big env0.junk 8
      = (true, blit big_dir env0.junk) := by
  obtain ⟨hlog, _, _, hroot, _, _⟩ := hdr_big_fields
  have hdiv : (Int.tdiv 8 8).toNat = 1 := by decide
  have hsec : spec_sector img_big 0 = some big_dir := by decide!
  unfold ole2_get_sbat_data_block
  rw [if_neg (by rw [hroot]; norm_num)]
  simp only [hdiv, hroot]
  rw [bat_advance, bat_advance, next_bat_block_img_big,
    read_block_of_sector env0 img_big hdr_big env0.junk 0 _ hlog img_big_size hsec]

/-- One pass of the small-block branch when the data block has been read and `writen`
succeeds. -/
theorem small_block_pass_of_data (env : Env) (file : List Byte) (hdr : ole2_header_t)
    (buff : Mem) (cb len : Int) (out : List Byte) (buff1 : Mem)
    (hd : ole2_get_sbat_data_block env file hdr buff cb = (true, buff1))
    (hw : env.write_error out (peek buff1 (64 * Int.tmod cb 8) (toU32 (MIN len 64))) = none) :
    small_block_pass env file hdr buff cb len out =
      WritePass.next buff1 (ole2_get_next_sbat_block env file hdr cb)
        (wrap32 (len - MIN len 64))
        (out ++ peek buff1 (64 * Int.tmod cb 8) (toU32 (MIN len 64))) := by
  unfold small_block_pass
  rw [hd]
  simp only [hw]

/-- A walk that ends after one pass of the small-block branch. -/
theorem writefile_loop_one_small_pass (env : Env) (file : List Byte) (hdr : ole2_header_t)
    (prop : property_t) (buff : Mem) (cb len : Int) (buff1 : Mem)
    (hsmall : toU32 prop.size < hdr.sbat_cutoff) (hcb : 0 ≤ cb) (hlen : 0 < len)
    (hrest : wrap32 (len - MIN len 64) = 0)
    (hd : ole2_get_sbat_data_block env file hdr buff cb = (true, buff1))
    (hw : env.write_error [] (peek buff1 (64 * Int.tmod cb 8) (toU32 (MIN len 64))) = none) :
    handler_writefile_loop env file hdr prop 1 buff cb len []
      = some (peek buff1 (64 * Int.tmod cb 8) (toU32 (MIN len 64))) := by
  unfold handler_writefile_loop
  rw [stream_loop_succ _ _ _ _ _ _ ⟨hcb, hlen⟩]
  unfold handler_writefile_pass
  rw [if_pos hsmall, small_block_pass_of_data env file hdr buff cb len [] buff1 hd hw]
  simp only
  rw [stream_loop_done _ _ _ _ _ _ (by rw [hrest]; simp)]
  simp

theorem handler_writefile_of_loop (env : Env) (file : List Byte) (fuel : Nat)
    (hdr : ole2_header_t) (prop : property_t) (outs : List Output) (data : List Byte)
    (ht : prop.type = 2) (ho : env.open_ok (stream_name env prop) = true)
    (hl : handler_writefile_loop env file hdr prop fuel env.junk prop.start_block prop.size []
      = some data) :
    handler_writefile env file fuel hdr prop outs
      = some (outs ++ [{ name := stream_name env prop, data := data }]) := by
  unfold handler_writefile
  rw [if_neg (by rw [ht]; simp), if_pos ho, hl]

theorem foo_big_fields :
    foo_big.type = 2 ∧ foo_big.start_block = 8 ∧ foo_big.size = 10 ∧
      stream_name env0 foo_big = [0x46, 0x6f, 0x6f] := by
  decide!

/-- What `handler_writefile` writes for "Foo" of `img_big`: the first 10 bytes of the
directory block. -/
theorem handler_writefile_img_big :
    handler_writefile env0 img_big 1 hdr_big foo_big []
      = some [Output.mk [0x46, 0x6f, 0x6f] [0x52, 0, 0, 0, 0, 0, 0, 0, 0, 0]] := by
  obtain ⟨_, _, hcut, _, _, _⟩ := hdr_big_fields
  obtain ⟨htype, hstart, hsz, hname⟩ := foo_big_fields
  have hchunk : peek (blit big_dir env0.junk) (64 * Int.tmod 8 8) (toU32 (MIN 10 64))
      = [0x52, 0, 0, 0, 0, 0, 0, 0, 0, 0] := by decide!
  have hloop := writefile_loop_one_small_pass env0 img_big hdr_big foo_big env0.junk 8 10
    (blit big_dir env0.junk) (by rw [hsz, hcut]; decide) (by norm_num) (by norm_num)
    (by decide) sbat_data_block_img_big rfl
  rw [hchunk, ← hstart, ← hsz] at hloop
  have h := handler_writefile_of_loop env0 img_big 1 hdr_big foo_big [] _ htype rfl hloop
  rw [hname] at h
  exact h

theorem handler_writefile_not_file (env : Env) (file : List Byte) (fuel : Nat)
    (hdr : ole2_header_t) (prop : property_t) (outs : List Output) (h : prop.type ≠ 2) :
    handler_writefile env file fuel hdr prop outs = some outs := by
  unfold handler_writefile
  rw [if_pos h]

/-- One pass of the directory walk over a block that holds the root, one more entry and
two unused slots. -/
theorem property_tree_pass_root_and_entry {σ : Type} (env : Env) (file : List Byte)
    (handler : ole2_header_t → property_t → σ → Option σ) (hdr : ole2_header_t)
    (pb0 pb : Mem) (cur : Int) (s s1 s2 : σ) (start : Int) (b : Bool)
    (hread : ole2_read_block env file hdr pb0 cur = (b, pb))
    (ht0 : (prop_at pb 0).type = 5) (hs0 : (prop_at pb 0).start_block = start)
    (ht1 : (prop_at pb 1).type = 2)
    (ht2 : (prop_at pb 2).type = 0) (ht3 : (prop_at pb 3).type = 0)
    (hh0 : handler { hdr with sbat_root_start := start } (prop_at pb 0) s = some s1)
    (hh1 : handler { hdr with sbat_root_start := start } (prop_at pb 1) s1 = some s2) :
    property_tree_pass env file handler hdr pb0 cur s
      = some ({ hdr with sbat_root_start := start }, s2) := by
  unfold property_tree_pass read_block_buff
  rw [hread]
  simp only
  unfold property_entries
  rw [if_pos (by rw [ht0]; norm_num)]
  simp only [ht0, if_true, hs0, hh0]
  unfold property_entries
  rw [if_pos (by rw [ht1]; norm_num)]
  simp only [ht1, hh1]
  rw [if_neg (by norm_num)]
  simp only [hh1]
  exact property_entries_skip handler pb _ s2 [2, 3] (by
    intro j hj
    simp only [List.mem_cons, List.mem_singleton, List.not_mem_nil, or_false] at hj
    rcases hj with rfl | rfl
    · exact ht2
    · exact ht3)

/-- A directory of one block. -/
theorem property_tree_one_block {σ : Type} (env : Env) (file : List Byte)
    (handler : ole2_header_t → property_t → σ → Option σ) (hdr hdr1 : ole2_header_t)
    (cur : Int) (s s1 : σ) (fuel : Nat) (hcur : hdr.prop_start = cur) (h0 : 0 ≤ cur)
    (hpass : property_tree_pass env file handler hdr env.junk cur s = some (hdr1, s1))
    (hnext : ole2_get_next_block_number env file hdr1 cur < 0) :
    ole2_read_property_tree env file hdr handler (fuel + 1) s = some (hdr1, s1) := by
  unfold ole2_read_property_tree
  rw [hcur, property_tree_loop_succ env file handler fuel hdr env.junk cur s h0, hpass]
  simp only
  exact property_tree_loop_neg env file handler fuel hdr1 _ _ s1 hnext

theorem cli_ole2_extract_of_tree (env : Env) (fuel : Nat) (file : List Byte)
    (hdr1 : ole2_header_t) (outs : List Output) (hmagic : file.take 8 = magic_id)
    (ht : ole2_read_property_tree env file (read_header env file)
      (handler_writefile env file fuel) fuel [] = some (hdr1, outs)) :
    cli_ole2_extract env fuel file = some (0, outs) := by
  have hcmp := magic_match env file hmagic
  unfold cli_ole2_extract ole2_extract_with
  simp only [hcmp, ne_eq, not_true_eq_false, if_false, ht]

theorem cli_ole2_extract_img_big :
    cli_ole2_extract env0 1 img_big
      = some (0, [Output.mk [0x46, 0x6f, 0x6f] [0x52, 0, 0, 0, 0, 0, 0, 0, 0, 0]]) := by
  have hmagic : img_big.take 8 = magic_id := by decide!
  have hh : (read_header env0 img_big).log2_big_block_size = 9 ∧
      (read_header env0 img_big).prop_start = 0 := by decide!
  have hsec : spec_sector img_big 0 = some big_dir := by decide!
  have hread := read_block_of_sector env0 img_big (read_header env0 img_big) env0.junk 0
    big_dir hh.1 img_big_size hsec
  have hent : (prop_at (blit big_dir env0.junk) 0).type = 5 ∧
      (prop_at (blit big_dir env0.junk) 0).start_block = 13952 ∧
      (prop_at (blit big_dir env0.junk) 1).type = 2 ∧
      (prop_at (blit big_dir env0.junk) 2).type = 0 ∧
      (prop_at (blit big_dir env0.junk) 3).type = 0 := by decide!
  have hnext : ole2_get_next_block_number env0 img_big hdr_big 0 < 0 := by decide!
  have hpass := property_tree_pass_root_and_entry env0 img_big
    (handler_writefile env0 img_big 1) (read_header env0 img_big) env0.junk
    (blit big_dir env0.junk) 0 [] [] _ 13952 true hread hent.1 hent.2.1 hent.2.2.1
    hent.2.2.2.1 hent.2.2.2.2
    (handler_writefile_not_file env0 img_big 1 _ _ [] (by rw [hent.1]; norm_num))
    handler_writefile_img_big
  exact cli_ole2_extract_of_tree env0 1 img_big _ _ hmagic
    (property_tree_one_block env0 img_big _ _ _ 0 [] _ 0 hh.2 (by norm_num) hpass hnext)

/-- C2 (defect of the code): `img_big` is a well-formed image with the default sizes whose
mini-stream is the chain 13952 -> 13953 of the big FAT (FAT sector 109, found through the
XBAT), and whose 10-byte stream "Foo" is small block 8, the first 64 bytes of block 13953:
00 01 .. 09.  `ole2_get_sbat_data_block` calls `ole2_get_next_bat_block` for block 13952
directly; that takes `bat_array[109]`, which is `sbat_root_start`, for a FAT sector, reads
block 13952 and returns its first entry, 0.  `handler_writefile` then copies the first 10
bytes of block 0, the directory, and so does `cli_ole2_extract`. -/
theorem mini_fat_round_trip_fails_behind_xbat :
    (img_big.take 8 = magic_id ∧ img_big.length = 7144960 ∧
      hdr_big.log2_big_block_size = 9 ∧ hdr_big.sbat_cutoff = 4096 ∧
      hdr_big.bat_count = 110) ∧
    ((prop_at (blit big_dir env0.junk) 0).type = 5 ∧
      (prop_at (blit big_dir env0.junk) 0).start_block = hdr_big.sbat_root_start) ∧
    (foo_big.type = 2 ∧ foo_big.start_block = 8 ∧ foo_big.size = 10) ∧
    spec_chain (spec_next_small img_big hdr_big) 8 [8] = true ∧
    spec_chain (spec_next_big img_big hdr_big) 13952 [13952, 13953] = true ∧
    spec_sector img_big 13952 = some (List.replicate 512 0) ∧
    spec_sector img_big 13953 = some img_ministream ∧
    (spec_mini_slice (List.replicate 512 0 ++ img_ministream) 8).take 10
      = [0, 1, 2, 3, 4, 5, 6, 7, 8, 9] ∧
    ole2_get_next_bat_block env0 img_big hdr_big 13952 = 0 ∧
    handler_writefile env0 img_big 1 hdr_big foo_big []
      = some [Output.mk [0x46, 0x6f, 0x6f] [0x52, 0, 0, 0, 0, 0, 0, 0, 0, 0]] ∧
    cli_ole2_extract env0 1 img_big
      = some (0, [Output.mk [0x46, 0x6f, 0x6f] [0x52, 0, 0, 0, 0, 0, 0, 0, 0, 0]]) := by
  obtain ⟨hlog, hcnt, hcut, _, _, _⟩ := hdr_big_fields
  obtain ⟨htype, hstart, hsz, _⟩ := foo_big_fields
  exact ⟨⟨by decide!, img_big_length, hlog, hcut, hcnt⟩, by decide!, ⟨htype, hstart, hsz⟩,
    by decide!, by decide!, spec_sector_img_big_13952, spec_sector_img_big_13953, by decide!,
    next_bat_block_img_big, handler_writefile_img_big, cli_ole2_extract_img_big⟩

end Ole2
